import Mathlib

/-!
# Verification of the parameter-sheet completion tool (`app/app.py`)

A shallow embedding of the grid-templating and directive-interpretation
engine of `app/app.py`, together with theorems settling the frozen claims
about it.

Modelling conventions:

* Worksheet cells hold `Option String` values (`none` = empty cell);
  coordinates are 1-based, as in `openpyxl`.
* External collaborators (the boto3 session / client factory, the JSON
  parser, the JSONPath evaluator, the `openpyxl` formula translator and the
  string renderer for extracted values) are passed in as function
  parameters: the code under verification only composes them.
* Python exceptions are modelled with `Except`; the distinct error
  constructors mirror the distinct `raise` sites of the source.
* Strings are manipulated through their character lists (`String.data`);
  `strReplace` mirrors `str.replace` (replace every non-overlapping
  occurrence, scanning left to right).
-/

set_option autoImplicit false

namespace AwsSheet

/-! ## Worksheet model

A worksheet is a grid of optional string values with 1-based coordinates.
`maxRow`/`maxCol` mirror `openpyxl`'s `max_row`/`max_column`; cells outside
those bounds do not exist (read as empty).  Writing a cell extends the
bounds, as assigning to `ws.cell(...)` does. -/

structure Sheet where
  maxRow : Nat
  maxCol : Nat
  val : Nat → Nat → Option String

def setCell (ws : Sheet) (r c : Nat) (v : Option String) : Sheet :=
  { maxRow := max ws.maxRow r
    maxCol := max ws.maxCol c
    val := fun r' c' => if r' = r ∧ c' = c then v else ws.val r' c' }

/-- Build a sheet from a row-major list of rows (1-based access). -/
def mkSheet (rows : List (List (Option String))) : Sheet :=
  { maxRow := rows.length
    maxCol := rows.foldr (fun row m => max row.length m) 0
    val := fun r c =>
      if r = 0 ∨ c = 0 then none
      else ((rows.get? (r - 1)).bind fun row => row.get? (c - 1)).join }

/-- Every real worksheet satisfies this: only cells within the 1-based
bounds can be non-empty. -/
def SheetBounded (ws : Sheet) : Prop :=
  ∀ r c, ws.val r c ≠ none → 1 ≤ r ∧ r ≤ ws.maxRow ∧ 1 ≤ c ∧ c ≤ ws.maxCol

/-! ## Action safety filter (`is_safe_action`, app.py:24-31) -/

/-- `matchPat pat s` returns `some rest` when `pat` is an initial segment
of `s`, with `rest` the remainder. -/
def matchPat : List Char → List Char → Option (List Char)
  | [], s => some s
  | _ :: _, [] => none
  | p :: ps, c :: cs => if p = c then matchPat ps cs else none

/-- `s.startswith(pfx)`. -/
def startsWithStr (s pfx : String) : Bool := (matchPat pfx.data s.data).isSome

def is_safe_action (action_name : String) : Bool :=
  if startsWithStr action_name "Get" then true
  else if startsWithStr action_name "Describe" then true
  else if startsWithStr action_name "List" then true
  else false

/-- `Except.isOk`, kept reducible for concrete evaluation. -/
def isOkE {ε α : Type} : Except ε α → Bool
  | .ok _ => true
  | .error _ => false

instance {ε α : Type} [DecidableEq ε] [DecidableEq α] : DecidableEq (Except ε α) := fun a b =>
  match a, b with
  | .ok x, .ok y =>
    if h : x = y then .isTrue (by rw [h]) else .isFalse (by intro hh; cases hh; exact h rfl)
  | .error x, .error y =>
    if h : x = y then .isTrue (by rw [h]) else .isFalse (by intro hh; cases hh; exact h rfl)
  | .ok _, .error _ => .isFalse (by intro hh; cases hh)
  | .error _, .ok _ => .isFalse (by intro hh; cases hh)

/-! ## Name mapper (`to_snake`, app.py:19-20)

`upper_case.sub(r'_\1', camel)[1:].lower()`: insert `_` before every
ASCII upper-case letter (the regex is `[A-Z]`), drop the first character
of the result, then lower-case.  Lower-casing is modelled on ASCII
letters, which is all the regex and the claims exercise. -/

def isUpperAZ (c : Char) : Bool := 'A' ≤ c && c ≤ 'Z'

def lowerAZ (c : Char) : Char :=
  if isUpperAZ c then Char.ofNat (c.toNat + 32) else c

def to_snake (camel : String) : String :=
  ⟨(((camel.data.flatMap fun c => if isUpperAZ c then ['_', c] else [c]).drop 1).map lowerAZ)⟩

/-- The transformation described by the claim: insert an underscore before
every *internal* (non-leading) upper-case letter, keeping every original
character, then lower-case the whole string. -/
def claimSnake (s : String) : String :=
  match s.data with
  | [] => ""
  | c :: rest =>
    ⟨lowerAZ c :: (rest.flatMap fun d => if isUpperAZ d then ['_', lowerAZ d] else [lowerAZ d])⟩

/-! ## String replacement (`str.replace`)

`matchPat pat s` returns `some rest` when `pat` is an initial segment of
`s`, with `rest` the remainder.  `replaceL pat rep s` mirrors Python's
`str.replace`: scan left to right, replacing every non-overlapping
occurrence of `pat` by `rep`.  (The empty pattern never arises in the
program — every pattern is a symbol followed by digits — and is modelled
as a plain copy.) -/

/-- Fuel-indexed worker for `replaceL`; the fuel only needs to dominate
the string's length, so the recursion is structural (and so computable by
the kernel). -/
def replaceLF (pat rep : List Char) : Nat → List Char → List Char
  | _, [] => []
  | 0, s => s
  | fuel + 1, c :: rest =>
    match matchPat pat (c :: rest) with
    | some _ =>
      if pat.isEmpty then c :: replaceLF pat rep fuel rest
      else rep ++ replaceLF pat rep fuel (rest.drop (pat.length - 1))
    | none => c :: replaceLF pat rep fuel rest

def replaceL (pat rep s : List Char) : List Char :=
  replaceLF pat rep s.length s

def strReplace (s pat rep : String) : String :=
  ⟨replaceL pat.data rep.data s.data⟩

/-- Number of occurrences of the character `c` in `s` (`str.count` for a
one-character needle). -/
def countChar (s : String) (c : Char) : Nat := s.data.count c

/-- The token `f'{symbol}{i}'`: the symbol character followed by the
decimal digits of `i`. -/
def tokStr (sym : Char) (i : Nat) : String := ⟨sym :: (Nat.repr i).data⟩

/-- `scan2 a b rep s`: replace every (non-overlapping, leftmost-first)
occurrence of the two-character pattern `[a, b]` in `s` by `rep`.  This is
`replaceL [a, b] rep` in a shape that recursion on `s` can follow. -/
def scan2 (a b : Char) (rep : List Char) : List Char → List Char
  | [] => []
  | [c] => [c]
  | c :: c2 :: rest2 =>
    if c = a ∧ c2 = b then rep ++ scan2 a b rep rest2
    else c :: scan2 a b rep (c2 :: rest2)

/-- Value of an ASCII digit `'1'`–`'9'`. -/
def digitVal (c : Char) : Option Nat :=
  if c = '1' then some 1 else if c = '2' then some 2 else if c = '3' then some 3
  else if c = '4' then some 4 else if c = '5' then some 5 else if c = '6' then some 6
  else if c = '7' then some 7 else if c = '8' then some 8 else if c = '9' then some 9
  else none

/-- Simultaneous substitution: every `%d` token (a `'%'` followed by one
digit `1`–`9`) with `d ≤ bound` is replaced by `vals d`; all other
characters, including `%d` tokens with `d > bound`, are left unchanged. -/
def substUpTo (bound : Nat) (vals : Nat → List Char) : List Char → List Char
  | [] => []
  | [c] => [c]
  | c :: c2 :: rest2 =>
    if c = '%' then
      match digitVal c2 with
      | some d =>
        if d ≤ bound then vals d ++ substUpTo bound vals rest2
        else c :: c2 :: substUpTo bound vals rest2
      | none => c :: substUpTo bound vals (c2 :: rest2)
    else c :: substUpTo bound vals (c2 :: rest2)

/-- Every `'%'` in the string is immediately followed by a digit `1`–`9`:
the string's placeholder tokens are exactly its `'%'` occurrences. -/
def clean9 : List Char → Bool
  | [] => true
  | [c] => c != '%'
  | c :: c2 :: rest2 =>
    if c = '%' then (digitVal c2).isSome && clean9 rest2
    else clean9 (c2 :: rest2)

/-- The string contains no `'%'` character. -/
def noPct (v : List Char) : Bool := v.all fun c => c != '%'

/-- The ASCII character of the digit `d` (meaningful for `d ≤ 9`). -/
def digitChar9 (d : Nat) : Char := Char.ofNat (48 + d)

/-- The substitution values supplied by a run of adjacent cells:
`cellVals cells d` is the value of the cell at offset `d - 1` (empty
cells give `""`, but the theorems require them to be present). -/
def cellVals (cells : Nat → Option String) (d : Nat) : List Char :=
  ((cells (d - 1)).getD "").data

/-- The substitution values supplied by an argument list:
`argVals args d` is the `d`-th argument (1-based). -/
def argVals (args : List String) (d : Nat) : List Char :=
  ((args.get? (d - 1)).getD "").data

/-! ## Error taxonomy

One constructor per distinct `raise` site of the source. -/

inductive Err where
  /-- `find_column_symbol`: `Symbol [...] is not found` -/
  | symbolNotFound (sym : String) (col : Nat)
  /-- `find_form`: `%top is not found.` -/
  | topNotFound
  /-- `find_form`: `%bottom is not found.` -/
  | bottomNotFound
  /-- `find_form`: `%bottom` seen before any `%top` (Python `NameError`
  on the unbound `left`) -/
  | nameUnbound
  /-- `read_path`: `Path is not found` -/
  | pathNotFound (row col : Nat)
  /-- `resolve_placeholders`: `replace` called with a non-string cell
  value (Python `TypeError`); `i` is the loop index that failed -/
  | cellNotString (i : Nat)
  /-- `read_api_params`: `replace` on a non-string request-params cell -/
  | paramsNotString
  /-- `invoke`: `API name or region name is not valid` -/
  | invalidServiceOrRegion
  /-- `invoke`: `no such action` -/
  | unknownAction
  /-- `invoke`: `Performing unsafe action was detected` -/
  | unsafeAction (a : String)
  /-- `invoke`: `parameter string is not valid JSON` -/
  | invalidRequestBody
  /-- `invoke`: `request is not accepted` -/
  | requestRejected
  /-- `process_workbook`: the `TargetResources` sheet is missing
  (Python `KeyError`) -/
  | noTargetSheet
deriving DecidableEq

/-! ## Placeholder resolver (`resolve_placeholders`, app.py:53-62)

`cells k` is the value of the cell `k` columns to the right of
`start_cell`.  The loop runs `i = 1 .. template.count(symbol)`; iteration
`i` replaces every occurrence of `f'{symbol}{i}'` by the value of the cell
at offset `i - 1`, failing (Python `TypeError`) when that cell's value is
not a string. -/

def resolveLoop (sym : Char) (cells : Nat → Option String) :
    Nat → Nat → String → Except Err String
  | _, 0, acc => .ok acc
  | i, k + 1, acc =>
    match cells (i - 1) with
    | none => .error (.cellNotString i)
    | some v => resolveLoop sym cells (i + 1) k (strReplace acc (tokStr sym i) v)

def resolve_placeholders (template : String) (sym : Char) (cells : Nat → Option String) :
    Except Err String :=
  resolveLoop sym cells 1 (countChar template sym) template

/-! ## Request reader (`read_api_params`, app.py:110-130)

Reads the four operand cells `col .. col+3` of `row` (API name, region
name, action name, request-params template) and substitutes `%1`,
`%2`, … with the argument values in order.  A `None` request-params cell
makes `replace` raise; the other three operands are passed through
unvalidated. -/

structure Request where
  api_name : Option String
  region_name : Option String
  action_name : Option String
  request_params : String
deriving DecidableEq

def substLoop (sym : Char) : Nat → List String → String → String
  | _, [], acc => acc
  | i, x :: rest, acc => substLoop sym (i + 1) rest (strReplace acc (tokStr sym i) x)

def read_api_params (ws : Sheet) (row col : Nat) (args : List String) :
    Except Err Request :=
  match ws.val row (col + 3) with
  | none => .error .paramsNotString
  | some req =>
    .ok { api_name := ws.val row col
          region_name := ws.val row (col + 1)
          action_name := ws.val row (col + 2)
          request_params := substLoop '%' 1 args req }

/-! ## Path-query wrapper (`get_values`/`get_value`, app.py:35-49)

The JSONPath evaluator is external; `findPath` stands for
`[x.value for x in jsonpath_ng.ext.parse(path).find(json)]`. -/

def get_values {Resp V : Type} (findPath : Option Resp → String → List V)
    (json : Option Resp) (path : String) : List V :=
  findPath json path

def get_value {Resp V : Type} (findPath : Option Resp → String → List V)
    (json : Option Resp) (path : String) : Option V :=
  match get_values findPath json path with
  | v :: _ => some v
  | [] => none

/-! ## Output writer (`write_value`, app.py:173-179) -/

structure CellW where
  number_format : String
  value : Option String

/-- `openpyxl.styles.numbers.FORMAT_GENERAL` -/
def FORMAT_GENERAL : String := "General"

/-- `openpyxl.styles.numbers.FORMAT_TEXT` -/
def FORMAT_TEXT : String := "@"

def write_value {V : Type} (render : V → String) (cell : CellW) (value : Option V) : CellW :=
  match value with
  | none => { cell with number_format := FORMAT_GENERAL, value := some "=NA()" }
  | some v => { cell with number_format := FORMAT_TEXT, value := some (render v) }

/-! ## API dispatcher (`invoke`, app.py:66-106)

The boto3 session is modelled by `sess`, returning `none` when client
construction fails; a client is its set of callable (snake-case) method
names plus its response behaviour (`none` = the underlying call raised).
`json.loads` is the external `parse`.  The returned triple is the updated
client cache, the list of client-method invocations actually performed,
and the result.  Order of stages mirrors the source: client lookup and
caching first, then method resolution, then the safety filter, then body
parsing, then the call. -/

structure Client (Req Resp : Type) where
  methods : List String
  respond : String → Req → Option Resp

abbrev CKey := Option String × Option String

abbrev Cache (Req Resp : Type) := List (CKey × Client Req Resp)

/-- `clients.get((api_name, region_name))`. -/
def lookupC {Req Resp : Type} (k : CKey) : Cache Req Resp → Option (Client Req Resp)
  | [] => none
  | (k', c) :: rest => if k' = k then some c else lookupC k rest

/-- Stages (b)-(e) of `invoke`, once a client is in hand: resolve the
method name (`getattr`), run the safety filter, parse the body, call. -/
def invokeResolved {Req Resp : Type} (parse : String → Option Req) (cl : Cache Req Resp)
    (client : Client Req Resp) (action_name request_params : Option String) :
    Cache Req Resp × List (String × Req) × Except Err Resp :=
  match action_name with
  | none => (cl, [], .error .unknownAction)
  | some act =>
    if client.methods.contains (to_snake act) then
      if is_safe_action act then
        match request_params with
        | none => (cl, [], .error .invalidRequestBody)
        | some ps =>
          match parse ps with
          | none => (cl, [], .error .invalidRequestBody)
          | some req =>
            match client.respond (to_snake act) req with
            | some resp => (cl, [(to_snake act, req)], .ok resp)
            | none => (cl, [(to_snake act, req)], .error .requestRejected)
      else (cl, [], .error (.unsafeAction act))
    else (cl, [], .error .unknownAction)

def invoke {Req Resp : Type} (sess : Option String → Option String → Option (Client Req Resp))
    (parse : String → Option Req) (clients : Cache Req Resp)
    (api_name region_name action_name request_params : Option String) :
    Cache Req Resp × List (String × Req) × Except Err Resp :=
  match lookupC (api_name, region_name) clients with
  | some client => invokeResolved parse clients client action_name request_params
  | none =>
    match sess api_name region_name with
    | some client =>
      invokeResolved parse (((api_name, region_name), client) :: clients) client
        action_name request_params
    | none => (clients, [], .error .invalidServiceOrRegion)

/-! ## Symbol scanner (`find_column_symbol`/`find_next_cell`, app.py:151-169)

Scan row `row` from column `col` up to `max_column` for a cell whose value
equals `sym`; return its column, or fail.  `find_next_cell` returns the
column immediately to the right of the found cell. -/

def find_column_symbol (ws : Sheet) (sym : String) (row col : Nat) : Except Err Nat :=
  match (List.range' col (ws.maxCol + 1 - col)).find? (fun c => ws.val row c == some sym) with
  | some c => .ok c
  | none => .error (.symbolNotFound sym col)

def find_next_cell (ws : Sheet) (sym : String) (row col : Nat) : Except Err Nat :=
  (find_column_symbol ws sym row col).map (· + 1)

/-! ## Path builder (`read_path`, app.py:134-147)

Concatenate `'.' + value` for consecutive cells of the row, starting at
`col`, until the first cell whose value is falsy (`None` or the empty
string); prefix the result with `'$'`.  The scan is bounded by
`max_column` because cells beyond it do not exist (read as `None`). -/

def read_path (ws : Sheet) (row col : Nat) : Except Err String :=
  let vals := (List.range' col (ws.maxCol + 1 - col)).map fun c => ws.val row c
  let parts := (vals.takeWhile fun v =>
    match v with
    | some s => s ≠ ""
    | none => false).filterMap id
  let s := parts.foldl (fun acc p => acc ++ "." ++ p) ""
  if s = "" then .error (.pathNotFound row col) else .ok ("$" ++ s)

/-! ## Form locator (`find_form`, app.py:182-202)

Scan column 1 top to bottom.  Every `%top` row records the top row and the
columns of `%left` and `%right` found in that row (a failed marker search
aborts).  The first `%bottom` row returns `(top, bottom, left, right)`;
a `%bottom` before any `%top` is the Python `NameError` on the unbound
`left`.  Exhausting the sheet fails with whichever boundary is missing. -/

/-- Processing of a `%top` row: locate `%left` in it, then `%right` to
the right of `%left` (a failed search aborts). -/
def findFormTop (ws : Sheet) (r : Nat) : Except Err (Nat × Nat) :=
  match find_column_symbol ws "%left" r 1 with
  | .error e => .error e
  | .ok l =>
    match find_column_symbol ws "%right" r l with
    | .error e => .error e
    | .ok rt => .ok (l, rt)

def findFormAux (ws : Sheet) : List Nat → Option (Nat × Nat × Nat) → Except Err (Nat × Nat × Nat × Nat)
  | [], st =>
    match st with
    | none => .error .topNotFound
    | some _ => .error .bottomNotFound
  | r :: rest, st =>
    if ws.val r 1 = some "%top" then
      match findFormTop ws r with
      | .error e => .error e
      | .ok (l, rt) => findFormAux ws rest (some (r, l, rt))
    else if ws.val r 1 = some "%bottom" then
      match st with
      | some (t, l, rt) => .ok (t, r, l, rt)
      | none => .error .nameUnbound
    else findFormAux ws rest st

def find_form (ws : Sheet) : Except Err (Nat × Nat × Nat × Nat) :=
  findFormAux ws (List.range' 1 ws.maxRow) none

/-! ## Template replicator (`copy_form`, app.py:220-264)

Only cell *values* are modelled.  Styles, row/column dimensions and the
outline property are display-only.  Merged ranges do not change values
either: in `openpyxl` the non-top-left cells of a merged range already
read as `None` in the template, the replica copy writes those same `None`
values, and re-merging the shifted range only re-blanks cells that were
copied as `None`; `unmerge_cells` does not touch values.  The formula
translator (`openpyxl.formula.translate.Translator`) is external and is
passed in as `tr formula (srcRow, srcCol) (dstRow, dstCol)`; a value is a
formula when it starts with `'='` (`cell.data_type == 'f'`).

The replica-writing loop is represented as a left fold over the list of
writes in exactly the source's iteration order (replica index `i`
outermost, then template column `j`, then row); each write reads its
source cell from the *current* sheet, as `ws.iter_cols` does.  The final
blanking loop (`iter_rows(min_col=work_col, max_row=bottom)`) blanks rows
`1..bottom` of columns `work_col..max_column`, where `max_column` is read
after the replicas have been written. -/

structure WItem where
  row : Nat
  dst : Nat
  src : Nat
  f : Option String → Option String

def foldWrites (ws : Sheet) (items : List WItem) : Sheet :=
  items.foldl (fun acc it => setCell acc it.row it.dst (it.f (acc.val it.row it.src))) ws

def copyCell (tr : String → Nat × Nat → Nat × Nat → String)
    (top i srcRow srcCol dstRow dstCol : Nat) (v : Option String) : Option String :=
  if srcRow = top ∧ v = some "%left" then some ("%left" ++ Nat.repr i)
  else if srcRow = top ∧ v = some "%right" then some ("%right" ++ Nat.repr i)
  else
    match v with
    | some s => if startsWithStr s "=" then some (tr s (srcRow, srcCol) (dstRow, dstCol)) else some s
    | none => none

def replicaItems (tr : String → Nat × Nat → Nat × Nat → String)
    (t b l r w count : Nat) : List WItem :=
  (List.range' 1 count).flatMap fun i =>
    (List.range' 0 w).flatMap fun j =>
      (List.range' t (b + 1 - t)).map fun row =>
        { row := row
          dst := r + (i - 1) * w + 1 + j
          src := l + j
          f := copyCell tr t i row (l + j) row (r + (i - 1) * w + 1 + j) }

def blankPositions (maxR minC maxC : Nat) : List (Nat × Nat) :=
  (List.range' 1 maxR).flatMap fun rr =>
    (List.range' minC (maxC + 1 - minC)).map fun cc => (rr, cc)

def foldBlank (ws : Sheet) (ps : List (Nat × Nat)) : Sheet :=
  ps.foldl (fun acc p => setCell acc p.1 p.2 none) ws

/-- The sheet produced by `copy_form` once the form rectangle
`(top, bottom, left, right)` has been located. -/
def copyFormSheet (tr : String → Nat × Nat → Nat × Nat → String) (ws : Sheet)
    (top bottom left right count : Nat) : Sheet :=
  let w := right + 1 - left
  let ws1 := foldWrites ws (replicaItems tr top bottom left right w count)
  let work_col := right + count * w + 1
  foldBlank ws1 (blankPositions bottom work_col ws1.maxCol)

def copy_form (tr : String → Nat × Nat → Nat × Nat → String) (ws : Sheet) (count : Nat) :
    Except Err Sheet :=
  match find_form ws with
  | .error e => .error e
  | .ok (top, bottom, left, right) =>
    .ok (copyFormSheet tr ws top bottom left right count)

/-! ## Directive interpreter (`process_worksheet`, app.py:267-293)

`Env` bundles the external collaborators; `PState` is the mutable state of
one worksheet-processing pass: the sheet, the (module-global) client
cache, the shared response register, and an observational trace recording
every executed Call (with the response it stored) and every executed
Output (with the register value it read, the resolved path, and the
extracted value).

The pass iterates over the argument sets (`i` is the 0-based `enumerate`
index); for each it scans column 1 of rows `1..max_row` in order: a
`%top` row locates `%left{i+1}` and enables directives; `%bottom` stops
the scan; `#call` and `#output` rows execute their directive when enabled.
Any failure aborts the whole pass, keeping the state reached so far. -/

inductive Ev (Resp V : Type) where
  | call (resp : Resp)
  | output (reg : Option Resp) (path : String) (value : Option V)
deriving DecidableEq

structure Env (Req Resp V : Type) where
  sess : Option String → Option String → Option (Client Req Resp)
  parse : String → Option Req
  findPath : Option Resp → String → List V
  render : V → String
  tr : String → Nat × Nat → Nat × Nat → String

structure PState (Req Resp V : Type) where
  ws : Sheet
  clients : Cache Req Resp
  response : Option Resp
  trace : List (Ev Resp V)

def procRows {Req Resp V : Type} (env : Env Req Resp V) (i : Nat) (x : List String) :
    List Nat → Option Nat → PState Req Resp V → PState Req Resp V × Except Err Unit
  | [], _, st => (st, .ok ())
  | r :: rest, left, st =>
    let v := st.ws.val r 1
    if v = some "%top" then
      match find_column_symbol st.ws ("%left" ++ Nat.repr (i + 1)) r 1 with
      | .error e => (st, .error e)
      | .ok c => procRows env i x rest (some c) st
    else if v = some "%bottom" then (st, .ok ())
    else
      match left with
      | none => procRows env i x rest none st
      | some lcol =>
        if v = some "#call" then
          match find_next_cell st.ws "##" r 1 with
          | .error e => (st, .error e)
          | .ok c =>
            match read_api_params st.ws r c x with
            | .error e => (st, .error e)
            | .ok req =>
              match invoke env.sess env.parse st.clients
                  req.api_name req.region_name req.action_name (some req.request_params) with
              | (cl, _, .error e) => ({ st with clients := cl }, .error e)
              | (cl, _, .ok resp) =>
                procRows env i x rest left
                  { st with clients := cl
                            response := some resp
                            trace := st.trace ++ [.call resp] }
        else if v = some "#output" then
          match find_next_cell st.ws "##" r 1 with
          | .error e => (st, .error e)
          | .ok c =>
            match read_path st.ws r c with
            | .error e => (st, .error e)
            | .ok path0 =>
              match (if path0.data.contains '%' then
                      match find_next_cell st.ws "###" r 1 with
                      | .error e => Except.error e
                      | .ok pc => resolve_placeholders path0 '%' (fun k => st.ws.val r (pc + k))
                     else Except.ok path0 : Except Err String) with
              | .error e => (st, .error e)
              | .ok path =>
                let value := get_value env.findPath st.response path
                match find_next_cell st.ws "####" r lcol with
                | .error e => (st, .error e)
                | .ok oc =>
                  let written : Option String :=
                    match value with
                    | none => some "=NA()"
                    | some w => some (env.render w)
                  procRows env i x rest left
                    { st with ws := setCell st.ws r oc written
                              trace := st.trace ++ [.output st.response path value] }
        else procRows env i x rest left st

def procArgs {Req Resp V : Type} (env : Env Req Resp V) :
    Nat → List (List String) → PState Req Resp V → PState Req Resp V × Except Err Unit
  | _, [], st => (st, .ok ())
  | i, x :: rest, st =>
    match procRows env i x (List.range' 1 st.ws.maxRow) none st with
    | (st', .ok ()) => procArgs env (i + 1) rest st'
    | (st', .error e) => (st', .error e)

def process_worksheet {Req Resp V : Type} (env : Env Req Resp V) (clients : Cache Req Resp)
    (ws : Sheet) (args : List (List String)) : PState Req Resp V × Except Err Unit :=
  match copy_form env.tr ws args.length with
  | .error e => ({ ws := ws, clients := clients, response := none, trace := [] }, .error e)
  | .ok ws1 => procArgs env 0 args { ws := ws1, clients := clients, response := none, trace := [] }

/-- The response stored by the most recent Call event of a trace
(`none` when the trace contains no Call). -/
def lastResp {Resp V : Type} (tr : List (Ev Resp V)) : Option Resp :=
  (tr.filterMap fun e => match e with | .call resp => some resp | _ => none).getLast?

/-- The response-register invariant of a worksheet-processing state: the
register holds the response stored by the most recent Call event (`none`
when no Call has executed), and every recorded Output event read the
register exactly as the Calls preceding it in the trace left it, and
extracted its value from that register. -/
def RegInv {Req Resp V : Type} (findPath : Option Resp → String → List V)
    (st : PState Req Resp V) : Prop :=
  st.response = lastResp st.trace ∧
  ∀ p reg path v, st.trace.get? p = some (Ev.output reg path v) →
    reg = lastResp (st.trace.take p) ∧ v = get_value findPath reg path

/-! ## Control-sheet reader (`read_target_resources_by_sheet`, app.py:296-309)

The result dictionary is an insertion-ordered association list; a repeated
sheet name appends another argument list to its entry
(`result.setdefault(...); result[...].append(args)`). -/

/-- First-match association-list lookup (Python `dict` access). -/
def lookupS {β : Type} (k : String) : List (String × β) → Option β
  | [] => none
  | (k1, v) :: rest => if k1 = k then some v else lookupS k rest

/-- Append `v` to the argument-list entry of every occurrence of key `k`
(`result[sheet_name].append(args)`). -/
def dAppend (k : String) (v : List String) :
    List (String × List (List String)) → List (String × List (List String))
  | [] => []
  | (k1, v1) :: rest =>
    if k1 = k then (k1, v1 ++ [v]) :: dAppend k v rest
    else (k1, v1) :: dAppend k v rest

def dInsert (d : List (String × List (List String))) (k : String) (v : List String) :
    List (String × List (List String)) :=
  if (lookupS k d).isSome then dAppend k v d else d ++ [(k, [v])]

/-- One control-sheet row: skip a falsy (`None`/empty) first cell, skip
names missing from the workbook, otherwise append the row's non-empty
argument values to that sheet's entry. -/
def targetStep (sheet_names : List String) (acc : List (String × List (List String)))
    (row : List (Option String)) : List (String × List (List String)) :=
  match row.head? with
  | none => acc
  | some none => acc
  | some (some name) =>
    if name = "" then acc
    else if sheet_names.contains name then dInsert acc name (row.tail.filterMap id)
    else acc

def read_target_resources_by_sheet (sheet_names : List String)
    (rows : List (List (Option String))) : List (String × List (List String)) :=
  rows.foldl (targetStep sheet_names) []

/-! ## Workbook driver (`process_workbook`, app.py:312-321)

A workbook is an insertion-ordered association of sheet names to sheets.
The driver reads the `TargetResources` control sheet, then processes each
target worksheet in order, threading the workbook and the client cache;
the first failure is wrapped with `'Failed: ' + sheet_name` and aborts the
run — the `.ok` result is the workbook that `wb.save` would persist, so an
`.error` result is a run with no saved output.  The returned list is the
sequence of worksheet names for which processing was started. -/

abbrev Workbook := List (String × Sheet)

def sheetRows (ws : Sheet) : List (List (Option String)) :=
  (List.range' 1 ws.maxRow).map fun r => (List.range' 1 ws.maxCol).map fun c => ws.val r c

def getSheetD (wbk : Workbook) (name : String) : Sheet :=
  (lookupS name wbk).getD (mkSheet [])

def setSheet (wbk : Workbook) (name : String) (s : Sheet) : Workbook :=
  wbk.map fun e => if e.1 = name then (e.1, s) else e

def processItems {Req Resp V : Type} (env : Env Req Resp V) :
    Workbook → Cache Req Resp → List (String × List (List String)) →
    List String × Except (String × Err) (Workbook × Cache Req Resp)
  | wbk, cache, [] => ([], .ok (wbk, cache))
  | wbk, cache, (name, argss) :: rest =>
    match process_worksheet env cache (getSheetD wbk name) argss with
    | (_, .error e) => ([name], .error ("Failed: " ++ name, e))
    | (st, .ok ()) =>
      let next := processItems env (setSheet wbk name st.ws) st.clients rest
      (name :: next.1, next.2)

def process_workbook {Req Resp V : Type} (env : Env Req Resp V) (wbk : Workbook)
    (cache : Cache Req Resp) : List String × Except (String × Err) (Workbook × Cache Req Resp) :=
  match lookupS "TargetResources" wbk with
  | none => ([], .error ("TargetResources", .noTargetSheet))
  | some ctrl =>
    processItems env wbk cache
      (read_target_resources_by_sheet (wbk.map (·.1)) (sheetRows ctrl))

/-- The argument lists the control-sheet reader records for `name`: one
per row whose first cell is `name`, each the row's remaining values with
every empty cell removed. -/
def rowsFor (name : String) (rows : List (List (Option String))) : List (List String) :=
  (rows.filter fun row => decide (row.head? = some (some name))).map
    fun row => row.tail.filterMap id

/-- The claim's reading of a control-sheet row's argument sequence: the
subsequent column values with only the *trailing* empty cells removed
(interior empties keep their position). -/
def dropTrailingNone (l : List (Option String)) : List (Option String) :=
  (l.reverse.dropWhile fun v => v.isNone).reverse

/-! ## Concrete fixtures

Closed instances of the external collaborators, used by the witness and
counterexample theorems. -/

/-- A client exposing exactly the callable `delete_bucket`, always
answering `"resp"`. -/
def exClient : Client Unit String :=
  { methods := ["delete_bucket"], respond := fun _ _ => some "resp" }

/-- A session whose client construction always succeeds with
`exClient`. -/
def exSess : Option String → Option String → Option (Client Unit String) :=
  fun _ _ => some exClient

/-- A JSON parser accepting every body. -/
def exParse : String → Option Unit := fun _ => some ()

/-- A bundle of concrete collaborators: the path evaluator returns the
whole response for the path `$.Name` and nothing otherwise; the formula
translator is the identity. -/
def exEnv : Env Unit String String :=
  { sess := exSess
    parse := exParse
    findPath := fun r p =>
      match r with
      | some s => if p = "$.Name" then [s] else []
      | none => []
    render := fun v => v
    tr := fun s _ _ => s }

/-- A workbook whose target worksheets are empty (no `%top` marker). -/
def exWb : Workbook := [("TargetResources", mkSheet []), ("A", mkSheet []), ("B", mkSheet [])]

def exItems : List (String × List (List String)) := [("A", [[]]), ("B", [[]])]

/-- A run of two non-empty cells (`"abc"`, `"xyz"`). -/
def exCells : Nat → Option String :=
  fun k => if k = 0 then some "abc" else if k = 1 then some "xyz" else none

/-- A run of two cells whose first value itself contains a placeholder
token. -/
def cexCells : Nat → Option String :=
  fun k => if k = 0 then some "%2" else if k = 1 then some "B" else none

/-- An identity formula translator. -/
def exTr : String → Nat × Nat → Nat × Nat → String := fun s _ _ => s

/-- A worksheet with a 2-by-2 form (rows 1-2, columns 2-3) and leftover
content at row 3, column 8 — below the form's bottom row and beyond the
bound of the single replica. -/
def exS3 : Sheet :=
  mkSheet [[some "%top", some "%left", some "%right"],
           [some "%bottom"],
           [none, none, none, none, none, none, none, some "x"]]

/-- The sheet `copy_form` produces on `exS3` with one replica. -/
def exS3after : Sheet :=
  match copy_form exTr exS3 1 with
  | .ok s => s
  | .error _ => mkSheet []

/-- A client exposing exactly the callable `list_buckets`, always
answering `"R"`. -/
def ex5Client : Client Unit String :=
  { methods := ["list_buckets"], respond := fun _ _ => some "R" }

/-- Collaborators for the directive-interpreter witness: client
construction always yields `ex5Client`, every body parses, and the path
evaluator returns the whole response for the path `$.Name`. -/
def exEnv5 : Env Unit String String :=
  { sess := fun _ _ => some ex5Client
    parse := fun _ => some ()
    findPath := fun r p =>
      match r with
      | some s => if p = "$.Name" then [s] else []
      | none => []
    render := fun v => v
    tr := fun s _ _ => s }

/-- A worksheet whose form (rows 1-4, columns 2-6) holds an `#output`
directive *above* its `#call` directive, so in every pass the Output runs
before the pass's own Call: the first pass's Output reads the initial
`none` register, and the second pass's Output reads the response left by
the *first* pass's Call. -/
def exS5 : Sheet :=
  mkSheet [[some "%top", some "%left", none, none, none, some "%right"],
           [some "#output", some "##", some "Name", none, some "####", none],
           [some "#call", some "##", some "s3", some "r", some "ListBuckets", some "{}"],
           [some "%bottom"]]

/-! # Lemmas and theorems -/

theorem len_le_foldr_max (rows : List (List (Option String))) (row : List (Option String))
    (hmem : row ∈ rows) :
    row.length ≤ rows.foldr (fun row m => max row.length m) 0 := by
  induction rows with
  | nil => simp at hmem
  | cons hd tl ih =>
    simp only [List.foldr_cons]
    rcases List.mem_cons.mp hmem with hmem | hmem
    · subst hmem; omega
    · have := ih hmem; omega

theorem mkSheet_bounded (rows : List (List (Option String))) :
    SheetBounded (mkSheet rows) := by
  intro r c h
  by_cases h0 : r = 0 ∨ c = 0
  · exfalso; apply h; simp [mkSheet, h0]
  push_neg at h0
  simp only [mkSheet, ne_eq, if_neg (by tauto : ¬ (r = 0 ∨ c = 0))] at h
  rcases hr : rows.get? (r - 1) with _ | row
  · rw [hr] at h; simp at h
  rcases hc : row.get? (c - 1) with _ | v
  · rw [hr] at h; simp only [Option.some_bind] at h; rw [hc] at h; simp at h
  have hrlt : r - 1 < rows.length := by
    by_contra hh
    rw [List.get?_eq_none.mpr (by omega)] at hr
    exact Option.noConfusion hr
  have hclt : c - 1 < row.length := by
    by_contra hh
    rw [List.get?_eq_none.mpr (by omega)] at hc
    exact Option.noConfusion hc
  have hrow := len_le_foldr_max rows row (List.get?_mem hr)
  exact ⟨by omega, by simp only [mkSheet]; omega, by omega, by simp only [mkSheet]; omega⟩

theorem lowerAZ_underscore : lowerAZ '_' = '_' := by decide

theorem map_lower_flatMap (rest : List Char) :
    (rest.flatMap fun d => if isUpperAZ d then ['_', d] else [d]).map lowerAZ
      = rest.flatMap fun d => if isUpperAZ d then ['_', lowerAZ d] else [lowerAZ d] := by
  induction rest with
  | nil => rfl
  | cons d t ih =>
    by_cases hd : isUpperAZ d <;>
      simp [hd, List.flatMap_cons, List.map_append, ih, lowerAZ_underscore]

theorem matchPat_isSome_iff (p : List Char) : ∀ s : List Char,
    (matchPat p s).isSome = true ↔ ∃ r, s = p ++ r := by
  induction p with
  | nil => intro s; simp [matchPat]
  | cons a ps ih =>
    intro s
    cases s with
    | nil =>
      constructor
      · intro h; simp [matchPat] at h
      · rintro ⟨r, hr⟩; simp at hr
    | cons c cs =>
      rcases eq_or_ne a c with rfl | h
      · have heq : matchPat (a :: ps) (a :: cs) = matchPat ps cs := by simp [matchPat]
        rw [heq, ih]
        constructor
        · rintro ⟨r, rfl⟩
          exact ⟨r, rfl⟩
        · rintro ⟨r, hr⟩
          injection hr with _ h2
          exact ⟨r, h2⟩
      · have heq : matchPat (a :: ps) (c :: cs) = none := by simp [matchPat, h]
        rw [heq]
        constructor
        · intro hh; simp at hh
        · rintro ⟨r, hr⟩
          injection hr with h1 _
          exact absurd h1.symm h

/-- C1: `is_safe_action` returns `true` exactly when the action name
starts with `"Get"`, `"Describe"` or `"List"` (the name's characters
extend one of those prefixes), and `false` for every name with any other
prefix. -/
theorem c1_is_safe_action_iff (s : String) :
    is_safe_action s = true ↔
      ((∃ r, s.data = "Get".data ++ r) ∨ (∃ r, s.data = "Describe".data ++ r) ∨
        (∃ r, s.data = "List".data ++ r)) := by
  have hg := matchPat_isSome_iff "Get".data s.data
  have hd := matchPat_isSome_iff "Describe".data s.data
  have hl := matchPat_isSome_iff "List".data s.data
  simp only [is_safe_action, startsWithStr]
  by_cases h1 : (matchPat "Get".data s.data).isSome <;>
    by_cases h2 : (matchPat "Describe".data s.data).isSome <;>
      by_cases h3 : (matchPat "List".data s.data).isSome <;>
        simp_all

/-- C7 (counterexample): on the mixed-case action name `"getBucket"`,
`to_snake` drops the leading character (`"et_bucket"`), so it is not the
string obtained by inserting an underscore before every internal
upper-case letter and lower-casing (which is `"get_bucket"`). -/
theorem c7_to_snake_counterexample :
    to_snake "getBucket" = "et_bucket" ∧ claimSnake "getBucket" = "get_bucket" ∧
      to_snake "getBucket" ≠ claimSnake "getBucket" := by
  refine ⟨by decide, by decide, by decide⟩

/-- C7 (amended): for every action name whose first character is an
upper-case letter, `to_snake` returns the string obtained by inserting an
underscore before every internal upper-case letter (preserving every
original character) and lower-casing the whole string; a name starting
with a lower-case letter instead loses its first character. -/
theorem c7_to_snake_leading_upper (s : String) (c : Char) (rest : List Char)
    (hdata : s.data = c :: rest) (hc : isUpperAZ c = true) :
    to_snake s = claimSnake s := by
  have h1 : (s.data.flatMap fun d => if isUpperAZ d then ['_', d] else [d])
      = '_' :: c :: (rest.flatMap fun d => if isUpperAZ d then ['_', d] else [d]) := by
    rw [hdata]; simp [List.flatMap_cons, hc]
  simp only [to_snake, h1, List.drop_succ_cons, List.drop_zero, List.map_cons,
    map_lower_flatMap]
  simp only [claimSnake, hdata]

/-- C7 (witness): the amended theorem applied to `"GetBucketPolicy"`,
which maps to `"get_bucket_policy"`. -/
theorem c7_to_snake_witness :
    to_snake "GetBucketPolicy" = claimSnake "GetBucketPolicy" ∧
      claimSnake "GetBucketPolicy" = "get_bucket_policy" :=
  ⟨c7_to_snake_leading_upper "GetBucketPolicy" 'G' "etBucketPolicy".data (by decide)
    (by decide), by decide⟩

theorem lookupC_cons_ne {Req Resp : Type} (k k' : CKey) (c : Client Req Resp)
    (rest : Cache Req Resp) (h : k ≠ k') :
    lookupC k ((k', c) :: rest) = lookupC k rest := by
  simp only [lookupC]
  rw [if_neg (fun hh => h hh.symm)]

theorem invokeResolved_unsafe {Req Resp : Type} (parse : String → Option Req)
    (cl : Cache Req Resp) (client : Client Req Resp) (act : String) (ps : Option String)
    (hnotsafe : is_safe_action act = false) :
    (invokeResolved parse cl client (some act) ps).1 = cl ∧
      (invokeResolved parse cl client (some act) ps).2.1 = [] ∧
      isOkE (invokeResolved parse cl client (some act) ps).2.2 = false := by
  simp only [invokeResolved]
  cases hc : client.methods.contains (to_snake act) <;> simp [hc, hnotsafe, isOkE]

/-- C2 (counterexample): with an empty client cache, a `DeleteBucket`
call fails with the unsafe-action error and no client method is invoked,
but the cache *does* gain a new entry for the call's (service, region)
pair — the client is constructed and cached before the safety filter
runs, so the cache is not unchanged on this error. -/
theorem c2_cache_gains_entry_counterexample :
    (invoke exSess exParse ([] : Cache Unit String) (some "s3") (some "ap-northeast-1")
        (some "DeleteBucket") (some "{}")).2.2 = .error (.unsafeAction "DeleteBucket") ∧
    (invoke exSess exParse ([] : Cache Unit String) (some "s3") (some "ap-northeast-1")
        (some "DeleteBucket") (some "{}")).2.1 = [] ∧
    (lookupC (some "s3", some "ap-northeast-1")
        (invoke exSess exParse ([] : Cache Unit String) (some "s3") (some "ap-northeast-1")
          (some "DeleteBucket") (some "{}")).1).isSome = true ∧
    (lookupC (some "s3", some "ap-northeast-1") ([] : Cache Unit String)).isSome = false := by
  refine ⟨by decide, by decide, by decide, by decide⟩

/-- C2 (amended): for every call whose action name fails the safety
filter, `invoke` fails before any client method is invoked; the client
cache may gain the entry for the call's own (service, region) key — the
client is constructed and cached before the safety check — but every
other key's cache entry is unchanged. -/
theorem c2_unsafe_fails_before_invoke {Req Resp : Type}
    (sess : Option String → Option String → Option (Client Req Resp))
    (parse : String → Option Req) (cache : Cache Req Resp)
    (api region ps : Option String) (act : String)
    (hnotsafe : is_safe_action act = false) :
    isOkE (invoke sess parse cache api region (some act) ps).2.2 = false ∧
    (invoke sess parse cache api region (some act) ps).2.1 = [] ∧
    ∀ k, k ≠ (api, region) →
      lookupC k (invoke sess parse cache api region (some act) ps).1 = lookupC k cache := by
  rcases h1 : lookupC (api, region) cache with _ | client
  · rcases h2 : sess api region with _ | client
    · simp [invoke, h1, h2, isOkE]
    · have h3 := invokeResolved_unsafe parse (((api, region), client) :: cache) client act ps hnotsafe
      simp only [invoke, h1, h2]
      exact ⟨h3.2.2, h3.2.1, fun k hk => by rw [h3.1, lookupC_cons_ne _ _ _ _ hk]⟩
  · have h3 := invokeResolved_unsafe parse cache client act ps hnotsafe
    simp only [invoke, h1]
    exact ⟨h3.2.2, h3.2.1, fun k _ => by rw [h3.1]⟩

/-- C2 (witness): the amended theorem at the concrete unsafe call
`DeleteBucket` on an empty cache. -/
theorem c2_unsafe_witness :
    isOkE (invoke exSess exParse ([] : Cache Unit String) (some "s3") (some "ap-northeast-1")
        (some "DeleteBucket") (some "{}")).2.2 = false ∧
    (invoke exSess exParse ([] : Cache Unit String) (some "s3") (some "ap-northeast-1")
        (some "DeleteBucket") (some "{}")).2.1 = [] ∧
    ∀ k, k ≠ ((some "s3" : Option String), (some "ap-northeast-1" : Option String)) →
      lookupC k (invoke exSess exParse ([] : Cache Unit String) (some "s3")
        (some "ap-northeast-1") (some "DeleteBucket") (some "{}")).1 =
        lookupC k ([] : Cache Unit String) :=
  c2_unsafe_fails_before_invoke exSess exParse [] (some "s3") (some "ap-northeast-1")
    (some "{}") "DeleteBucket" (by decide)

/-- C4: writing the result of `get_value` into a cell: when the path
matches zero elements the extracted value is absent and the cell receives
the `=NA()` formula marker with the generic number format; when the path
matches one or more elements the extracted value is the first match in
evaluator order and the cell receives that value's string form with the
text number format. -/
theorem c4_get_value_write_value {Resp V : Type}
    (findPath : Option Resp → String → List V) (json : Option Resp) (path : String)
    (cell : CellW) (render : V → String) :
    get_value findPath json path = (findPath json path).head? ∧
      write_value render cell (get_value findPath json path) =
        (match findPath json path with
          | [] => { number_format := FORMAT_GENERAL, value := some "=NA()" }
          | v :: _ => { number_format := FORMAT_TEXT, value := some (render v) }) := by
  simp only [get_value, get_values]
  rcases findPath json path with _ | ⟨v, vs⟩ <;> simp [write_value]

theorem lookupS_dAppend_self (k : String) (v : List String) :
    ∀ d : List (String × List (List String)), (lookupS k d).isSome = true →
    lookupS k (dAppend k v d) = some ((lookupS k d).getD [] ++ [v]) := by
  intro d
  induction d with
  | nil => intro h; simp [lookupS] at h
  | cons e rest ih =>
    rcases e with ⟨k1, v1⟩
    intro h
    by_cases hk : k1 = k
    · rw [dAppend, if_pos hk, lookupS, if_pos hk, lookupS, if_pos hk]
      rfl
    · rw [lookupS, if_neg hk] at h
      rw [dAppend, if_neg hk, lookupS, if_neg hk, lookupS, if_neg hk]
      exact ih h

theorem lookupS_dAppend_ne (k k' : String) (v : List String) (h : k' ≠ k) :
    ∀ d : List (String × List (List String)),
    lookupS k' (dAppend k v d) = lookupS k' d := by
  intro d
  induction d with
  | nil => rfl
  | cons e rest ih =>
    rcases e with ⟨k1, v1⟩
    by_cases hk : k1 = k
    · have hne : ¬ k1 = k' := fun hh => h (hh.symm.trans hk)
      rw [dAppend, if_pos hk, lookupS, if_neg hne, lookupS, if_neg hne]
      exact ih
    · by_cases hk' : k1 = k'
      · rw [dAppend, if_neg hk, lookupS, if_pos hk', lookupS, if_pos hk']
      · rw [dAppend, if_neg hk, lookupS, if_neg hk', lookupS, if_neg hk']
        exact ih

theorem lookupS_append_single_self (k : String) (v : List String) :
    ∀ d : List (String × List (List String)), lookupS k d = none →
    lookupS k (d ++ [(k, [v])]) = some [v] := by
  intro d
  induction d with
  | nil => intro _; rw [List.nil_append, lookupS, if_pos rfl]
  | cons e rest ih =>
    rcases e with ⟨k1, v1⟩
    intro h
    by_cases hk : k1 = k
    · rw [lookupS, if_pos hk] at h
      exact Option.noConfusion h
    · rw [lookupS, if_neg hk] at h
      rw [List.cons_append, lookupS, if_neg hk]
      exact ih h

theorem lookupS_append_single_ne (k k' : String) (v : List String) (h : k' ≠ k) :
    ∀ d : List (String × List (List String)),
    lookupS k' (d ++ [(k, [v])]) = lookupS k' d := by
  intro d
  induction d with
  | nil =>
    show lookupS k' [(k, [v])] = lookupS k' []
    have heq : lookupS k' [(k, [v])] = if k = k' then some [v] else lookupS k' [] := rfl
    rw [heq, if_neg (Ne.symm h)]
  | cons e rest ih =>
    rcases e with ⟨k1, v1⟩
    by_cases hk : k1 = k'
    · rw [List.cons_append, lookupS, if_pos hk, lookupS, if_pos hk]
    · rw [List.cons_append, lookupS, if_neg hk, lookupS, if_neg hk]
      exact ih

theorem lookupS_dInsert_self (d : List (String × List (List String))) (k : String)
    (v : List String) :
    lookupS k (dInsert d k v) = some ((lookupS k d).getD [] ++ [v]) := by
  by_cases h : (lookupS k d).isSome
  · rw [dInsert, if_pos h]
    exact lookupS_dAppend_self k v d h
  · rw [dInsert, if_neg h]
    have hnone : lookupS k d = none := by
      cases hl : lookupS k d with
      | none => rfl
      | some l => rw [hl] at h; simp at h
    rw [lookupS_append_single_self k v d hnone, hnone]
    rfl

theorem lookupS_dInsert_ne (d : List (String × List (List String))) (k k' : String)
    (v : List String) (h : k' ≠ k) :
    lookupS k' (dInsert d k v) = lookupS k' d := by
  by_cases hs : (lookupS k d).isSome
  · rw [dInsert, if_pos hs]
    exact lookupS_dAppend_ne k k' v h d
  · rw [dInsert, if_neg hs]
    exact lookupS_append_single_ne k k' v h d

theorem rowsFor_cons_self (name : String) (row : List (Option String))
    (rest : List (List (Option String))) (h : row.head? = some (some name)) :
    rowsFor name (row :: rest) = row.tail.filterMap id :: rowsFor name rest := by
  simp [rowsFor, List.filter_cons, h]

theorem rowsFor_cons_skip (name : String) (row : List (Option String))
    (rest : List (List (Option String))) (h : row.head? ≠ some (some name)) :
    rowsFor name (row :: rest) = rowsFor name rest := by
  simp [rowsFor, List.filter_cons, h]

theorem read_target_go (name : String) (sheet_names : List String)
    (hmem : sheet_names.contains name = true) (hne : name ≠ "") :
    ∀ (rows : List (List (Option String))) (acc : List (String × List (List String))),
    lookupS name (rows.foldl (targetStep sheet_names) acc) =
      (match lookupS name acc with
        | some l => some (l ++ rowsFor name rows)
        | none => if rowsFor name rows = [] then none else some (rowsFor name rows)) := by
  intro rows
  induction rows with
  | nil =>
    intro acc
    cases hl : lookupS name acc <;> simp [rowsFor, hl]
  | cons row rest ih =>
    intro acc
    rw [List.foldl_cons]
    rcases hhead : row.head? with _ | nm
    · rw [rowsFor_cons_skip name row rest (by rw [hhead]; intro hh; cases hh)]
      have hstep : targetStep sheet_names acc row = acc := by
        simp only [targetStep, hhead]
      rw [hstep]
      exact ih acc
    rcases nm with _ | nm
    · rw [rowsFor_cons_skip name row rest (by rw [hhead]; intro hh; cases hh)]
      have hstep : targetStep sheet_names acc row = acc := by
        simp only [targetStep, hhead]
      rw [hstep]
      exact ih acc
    by_cases hnm : nm = name
    · subst hnm
      rw [rowsFor_cons_self nm row rest hhead]
      have hstep : targetStep sheet_names acc row = dInsert acc nm (row.tail.filterMap id) := by
        simp only [targetStep, hhead]
        rw [if_neg hne, if_pos hmem]
      rw [hstep]
      rw [ih (dInsert acc nm (row.tail.filterMap id))]
      rw [lookupS_dInsert_self]
      cases hl : lookupS nm acc with
      | none =>
        rw [Option.getD_none, List.nil_append]
        rw [if_neg (by simp : ¬ (row.tail.filterMap id :: rowsFor nm rest = []))]
        cases hrf : rowsFor nm rest with
        | nil => rfl
        | cons a b => rfl
      | some l =>
        rw [Option.getD_some]
        show some ((l ++ [row.tail.filterMap id]) ++ rowsFor nm rest) =
          some (l ++ row.tail.filterMap id :: rowsFor nm rest)
        rw [List.append_assoc]
        rfl
    · have hne2 : row.head? ≠ some (some name) := by
        rw [hhead]; intro hh; injection hh with hh2; injection hh2 with hh3; exact hnm hh3
      rw [rowsFor_cons_skip name row rest hne2]
      by_cases hblank : nm = ""
      · have hstep : targetStep sheet_names acc row = acc := by
          simp only [targetStep, hhead]
          rw [if_pos hblank]
        rw [hstep]
        exact ih acc
      by_cases hin : sheet_names.contains nm
      · have hstep : targetStep sheet_names acc row = dInsert acc nm (row.tail.filterMap id) := by
          simp only [targetStep, hhead]
          rw [if_neg hblank, if_pos hin]
        rw [hstep]
        rw [ih (dInsert acc nm (row.tail.filterMap id))]
        rw [lookupS_dInsert_ne acc nm name _ (Ne.symm hnm)]
      · have hstep : targetStep sheet_names acc row = acc := by
          simp only [targetStep, hhead]
          rw [if_neg hblank, if_neg hin]
        rw [hstep]
        exact ih acc

/-- C9 (counterexample): for the control-sheet row `["S", "a", empty,
"b"]` (with worksheet `S` existing), the recorded argument sequence is
`["a", "b"]`: the interior empty cell is removed and `"b"` moves from
position 3 to position 2, so the sequence is not the subsequent column
values with only trailing empties ignored (which has three entries, with
`"b"` still third). -/
theorem c9_interior_empty_counterexample :
    lookupS "S" (read_target_resources_by_sheet ["S"]
        [[some "S", some "a", none, some "b"]]) = some [["a", "b"]] ∧
    dropTrailingNone [some "a", none, some "b"] = [some "a", none, some "b"] ∧
    (["a", "b"] : List String).length = 2 ∧
    (dropTrailingNone [some "a", none, some "b"]).length = 3 ∧
    (["a", "b"] : List String).get? 2 = none ∧
    (dropTrailingNone [some "a", none, some "b"]).get? 2 = some (some "b") := by
  refine ⟨by decide, by decide, by decide, by decide, by decide, by decide⟩

/-- C9 (amended): for every control-sheet row naming a worksheet that
exists in the workbook, the argument sequence recorded for that row is
the values of the subsequent columns in the same row, in order, with
*every* empty cell removed — interior empty cells as well as trailing
ones, so later values keep only their relative order, not their column
position.  Stated as a full characterisation: the entry recorded for
`name` is one argument list per row whose first cell is `name`, each the
row's remaining values with all empties removed. -/
theorem c9_read_target_characterisation (sheet_names : List String)
    (rows : List (List (Option String))) (name : String)
    (hmem : sheet_names.contains name = true) (hne : name ≠ "") :
    lookupS name (read_target_resources_by_sheet sheet_names rows) =
      (if rowsFor name rows = [] then none else some (rowsFor name rows)) := by
  rw [read_target_resources_by_sheet]
  rw [read_target_go name sheet_names hmem hne rows []]
  rfl

/-- C9 (witness): the characterisation applied to a concrete control
sheet with two rows for the worksheet `S`. -/
theorem c9_read_target_witness :
    lookupS "S" (read_target_resources_by_sheet ["S", "T"]
        [[some "S", some "a", none, some "b"], [some "T"], [some "S", some "c"]]) =
      (if rowsFor "S" [[some "S", some "a", none, some "b"], [some "T"],
          [some "S", some "c"]] = [] then none
        else some (rowsFor "S" [[some "S", some "a", none, some "b"], [some "T"],
          [some "S", some "c"]])) :=
  c9_read_target_characterisation ["S", "T"]
    [[some "S", some "a", none, some "b"], [some "T"], [some "S", some "c"]] "S"
    (by decide) (by decide)
/-- C8: for every workbook run, if the first `j` target worksheets
process successfully (reaching workbook `wbkJ` and client cache `cacheJ`)
and processing the `(j+1)`-st worksheet fails with error `e`, then the
whole run aborts at that point: the driver's trace covers exactly the
first `j + 1` worksheets (no later worksheet in the mapping is
processed), and the result is the failure wrapped as
`"Failed: " ++ name` — an `.error` result, so the workbook is never
saved (only an `.ok` result carries a workbook for `wb.save`). -/
theorem c8_first_failure_aborts {Req Resp V : Type} (env : Env Req Resp V) :
    ∀ (j : Nat) (items : List (String × List (List String))) (wbk : Workbook)
      (cache : Cache Req Resp) (wbkJ : Workbook) (cacheJ : Cache Req Resp)
      (name : String) (argss : List (List String)) (e : Err),
    processItems env wbk cache (items.take j) =
      ((items.take j).map (·.1), .ok (wbkJ, cacheJ)) →
    items.get? j = some (name, argss) →
    (process_worksheet env cacheJ (getSheetD wbkJ name) argss).2 = .error e →
    processItems env wbk cache items =
      ((items.take (j + 1)).map (·.1), .error ("Failed: " ++ name, e)) := by
  intro j
  induction j with
  | zero =>
    intro items wbk cache wbkJ cacheJ name argss e hpre hget hfail
    rcases items with _ | ⟨⟨nm0, ag0⟩, rest⟩
    · exact Option.noConfusion hget
    have hnm : nm0 = name ∧ ag0 = argss := by
      rw [List.get?] at hget
      injection hget with hh
      exact ⟨congrArg Prod.fst hh, congrArg Prod.snd hh⟩
    rcases hnm with ⟨rfl, rfl⟩
    have hwc : wbkJ = wbk ∧ cacheJ = cache := by
      rw [List.take_zero] at hpre
      have := congrArg Prod.snd hpre
      simp only [processItems] at this
      injection this with hh
      exact ⟨(congrArg Prod.fst hh).symm, (congrArg Prod.snd hh).symm⟩
    rcases hwc with ⟨rfl, rfl⟩
    rw [List.take_succ_cons, List.take_zero, List.map_cons, List.map_nil]
    rcases hw : process_worksheet env cacheJ (getSheetD wbkJ nm0) ag0 with ⟨st, res⟩
    rw [hw] at hfail
    simp only at hfail
    subst hfail
    rw [processItems, hw]
  | succ j ih =>
    intro items wbk cache wbkJ cacheJ name argss e hpre hget hfail
    rcases items with _ | ⟨⟨nm0, ag0⟩, rest⟩
    · exact Option.noConfusion hget
    rw [List.take_succ_cons, List.map_cons] at hpre
    rcases hw : process_worksheet env cache (getSheetD wbk nm0) ag0 with ⟨st, res⟩
    cases res with
    | error e0 =>
      rw [processItems, hw] at hpre
      have h1 := congrArg Prod.snd hpre
      simp only at h1
      exact Except.noConfusion h1
    | ok u =>
      cases u
      rw [processItems, hw] at hpre
      have h1 := congrArg Prod.fst hpre
      have h2 := congrArg Prod.snd hpre
      simp only at h1 h2
      injection h1 with _ h1t
      have hpre2 : processItems env (setSheet wbk nm0 st.ws) st.clients (rest.take j) =
          ((rest.take j).map (·.1), .ok (wbkJ, cacheJ)) := by
        rcases hnext : processItems env (setSheet wbk nm0 st.ws) st.clients (rest.take j)
          with ⟨tr2, res2⟩
        rw [hnext] at h1t h2
        simp only at h1t h2
        rw [h1t, h2]
      have hget2 : rest.get? j = some (name, argss) := by
        rw [List.get?] at hget
        exact hget
      have := ih rest (setSheet wbk nm0 st.ws) st.clients wbkJ cacheJ name argss e
        hpre2 hget2 hfail
      rw [processItems, hw]
      simp only []
      rw [this, List.take_succ_cons, List.map_cons]

/-- C8 (witness): a two-worksheet run whose first worksheet fails (its
sheet has no `%top` boundary): the run's trace is exactly `["A"]`, the
second worksheet is never processed, and the result is the wrapped
failure with no saved workbook. -/
theorem c8_first_failure_witness :
    processItems exEnv exWb ([] : Cache Unit String) exItems =
      ((exItems.take 1).map (·.1), .error ("Failed: " ++ "A", Err.topNotFound)) ∧
    (exItems.take 1).map (·.1) = ["A"] :=
  ⟨c8_first_failure_aborts exEnv 0 exItems exWb [] exWb [] "A" [[]] Err.topNotFound
    (by rfl) (by rfl) (by rfl), by rfl⟩

theorem replaceLF_nil (pat rep : List Char) (fuel : Nat) :
    replaceLF pat rep fuel [] = [] := by
  cases fuel <;> rfl

theorem replaceLF_eq_scan2 (a b : Char) (rep : List Char) :
    ∀ (fuel : Nat) (s : List Char), s.length ≤ fuel →
    replaceLF [a, b] rep fuel s = scan2 a b rep s := by
  intro fuel
  induction fuel with
  | zero =>
    intro s hs
    have hnil : s = [] := List.eq_nil_of_length_eq_zero (by omega)
    subst hnil
    rfl
  | succ fuel ih =>
    intro s hs
    cases s with
    | nil => rfl
    | cons c rest =>
      cases rest with
      | nil =>
        have hm : matchPat [a, b] [c] = none := by
          by_cases h : a = c <;> simp [matchPat, h]
        show (match matchPat [a, b] [c] with
          | some _ =>
            if ([a, b] : List Char).isEmpty then c :: replaceLF [a, b] rep fuel []
            else rep ++ replaceLF [a, b] rep fuel (List.drop (([a, b] : List Char).length - 1) [])
          | none => c :: replaceLF [a, b] rep fuel []) = scan2 a b rep [c]
        rw [hm]
        show c :: replaceLF [a, b] rep fuel [] = scan2 a b rep [c]
        rw [replaceLF_nil]
        simp [scan2]
      | cons c2 rest2 =>
        have hlen2 : rest2.length ≤ fuel := by
          simp only [List.length_cons] at hs
          omega
        have hlen1 : (c2 :: rest2).length ≤ fuel := by
          simp only [List.length_cons] at hs ⊢
          omega
        show (match matchPat [a, b] (c :: c2 :: rest2) with
          | some _ =>
            if ([a, b] : List Char).isEmpty then c :: replaceLF [a, b] rep fuel (c2 :: rest2)
            else rep ++ replaceLF [a, b] rep fuel
              (List.drop (([a, b] : List Char).length - 1) (c2 :: rest2))
          | none => c :: replaceLF [a, b] rep fuel (c2 :: rest2)) =
          scan2 a b rep (c :: c2 :: rest2)
        by_cases h1 : a = c
        · by_cases h2 : b = c2
          · have hm : matchPat [a, b] (c :: c2 :: rest2) = some rest2 := by
              simp [matchPat, h1, h2]
            rw [hm]
            show rep ++ replaceLF [a, b] rep fuel rest2 = scan2 a b rep (c :: c2 :: rest2)
            rw [scan2, if_pos (⟨h1.symm, h2.symm⟩ : c = a ∧ c2 = b)]
            rw [ih rest2 hlen2]
          · have hm : matchPat [a, b] (c :: c2 :: rest2) = none := by
              simp [matchPat, h1, h2]
            rw [hm]
            show c :: replaceLF [a, b] rep fuel (c2 :: rest2) = scan2 a b rep (c :: c2 :: rest2)
            rw [scan2, if_neg (fun hc : c = a ∧ c2 = b => h2 hc.2.symm)]
            rw [ih (c2 :: rest2) hlen1]
        · have hm : matchPat [a, b] (c :: c2 :: rest2) = none := by
            simp [matchPat, h1]
          rw [hm]
          show c :: replaceLF [a, b] rep fuel (c2 :: rest2) = scan2 a b rep (c :: c2 :: rest2)
          rw [scan2, if_neg (fun hc : c = a ∧ c2 = b => h1 hc.1.symm)]
          rw [ih (c2 :: rest2) hlen1]

theorem replaceL_eq_scan2 (a b : Char) (rep : List Char) (s : List Char) :
    replaceL [a, b] rep s = scan2 a b rep s :=
  replaceLF_eq_scan2 a b rep s.length s (Nat.le_refl _)

theorem scan2_cons_ne (a b x : Char) (rep ys : List Char) (h : x ≠ a) :
    scan2 a b rep (x :: ys) = x :: scan2 a b rep ys := by
  cases ys with
  | nil => rfl
  | cons y ys2 =>
    rw [scan2, if_neg (fun hc => h hc.1)]

theorem scan2_append_noPct (b : Char) (rep : List Char) :
    ∀ (u t : List Char), noPct u = true →
    scan2 '%' b rep (u ++ t) = u ++ scan2 '%' b rep t := by
  intro u
  induction u with
  | nil => intro t _; rfl
  | cons x u2 ih =>
    intro t hu
    rw [noPct, List.all_cons, Bool.and_eq_true] at hu
    have hx : x ≠ '%' := by simpa using hu.1
    have hu2 : noPct u2 = true := hu.2
    rw [List.cons_append, scan2_cons_ne _ _ _ _ _ hx, ih t hu2, List.cons_append]

theorem digitVal_bounds (c : Char) (d : Nat) (h : digitVal c = some d) :
    1 ≤ d ∧ d ≤ 9 := by
  rw [digitVal] at h
  split_ifs at h <;> first
    | (injection h with hd; omega)
    | exact Option.noConfusion h

theorem digitVal_inj (c : Char) (d : Nat) (h : digitVal c = some d) :
    c = digitChar9 d := by
  rw [digitVal] at h
  split_ifs at h with h1 h2 h3 h4 h5 h6 h7 h8 h9 <;>
    first
      | (injection h with hd; subst hd; simp_all; decide)
      | exact Option.noConfusion h

theorem digitVal_digitChar9 (d : Nat) (h1 : 1 ≤ d) (h9 : d ≤ 9) :
    digitVal (digitChar9 d) = some d := by
  interval_cases d <;> decide

theorem digitVal_ne_pct (c : Char) (d : Nat) (h : digitVal c = some d) : c ≠ '%' := by
  intro hc
  rw [hc] at h
  rw [(by decide : digitVal '%' = none)] at h
  exact Option.noConfusion h

theorem substUpTo_tok (bound : Nat) (vals : Nat → List Char) (c2 : Char) (rest : List Char)
    (d : Nat) (hdv : digitVal c2 = some d) :
    substUpTo bound vals ('%' :: c2 :: rest) =
      if d ≤ bound then vals d ++ substUpTo bound vals rest
      else '%' :: c2 :: substUpTo bound vals rest := by
  rw [substUpTo, if_pos rfl, hdv]

theorem substUpTo_nonpct (bound : Nat) (vals : Nat → List Char) (c c2 : Char)
    (rest : List Char) (hc : c ≠ '%') :
    substUpTo bound vals (c :: c2 :: rest) = c :: substUpTo bound vals (c2 :: rest) := by
  rw [substUpTo, if_neg hc]

theorem clean9_tok (c2 : Char) (rest : List Char) :
    clean9 ('%' :: c2 :: rest) = ((digitVal c2).isSome && clean9 rest) := by
  rw [clean9, if_pos rfl]

theorem clean9_nonpct (c c2 : Char) (rest : List Char) (hc : c ≠ '%') :
    clean9 (c :: c2 :: rest) = clean9 (c2 :: rest) := by
  rw [clean9, if_neg hc]

theorem substUpTo_zero (vals : Nat → List Char) :
    ∀ s : List Char, clean9 s = true → substUpTo 0 vals s = s
  | [] => fun _ => rfl
  | [_] => fun _ => rfl
  | c :: c2 :: rest => fun h => by
    by_cases hc : c = '%'
    · subst hc
      rw [clean9_tok, Bool.and_eq_true] at h
      rcases hdv : digitVal c2 with _ | d
      · rw [hdv] at h
        simp at h
      have hb := digitVal_bounds c2 d hdv
      rw [substUpTo_tok 0 vals c2 rest d hdv, if_neg (by omega : ¬ d ≤ 0)]
      rw [substUpTo_zero vals rest (by rw [hdv] at h; exact h.2)]
    · rw [clean9_nonpct c c2 rest hc] at h
      rw [substUpTo_nonpct 0 vals c c2 rest hc, substUpTo_zero vals (c2 :: rest) h]

theorem scan2_substUpTo_step (vals : Nat → List Char) (i : Nat) (hi : i + 1 ≤ 9)
    (hvals : ∀ d, noPct (vals d) = true) :
    ∀ s : List Char, clean9 s = true →
    scan2 '%' (digitChar9 (i + 1)) (vals (i + 1)) (substUpTo i vals s) =
      substUpTo (i + 1) vals s
  | [] => fun _ => rfl
  | [_] => fun _ => rfl
  | c :: c2 :: rest => fun h => by
    by_cases hc : c = '%'
    · subst hc
      rw [clean9_tok, Bool.and_eq_true] at h
      rcases hdv : digitVal c2 with _ | d
      · rw [hdv] at h
        simp at h
      rw [hdv] at h
      have hrest : clean9 rest = true := h.2
      have hb := digitVal_bounds c2 d hdv
      rw [substUpTo_tok i vals c2 rest d hdv, substUpTo_tok (i + 1) vals c2 rest d hdv]
      by_cases hdi : d ≤ i
      · rw [if_pos hdi, if_pos (by omega : d ≤ i + 1)]
        rw [scan2_append_noPct _ _ (vals d) _ (hvals d)]
        rw [scan2_substUpTo_step vals i hi hvals rest hrest]
      · by_cases hdi1 : d = i + 1
        · rw [if_neg hdi, if_pos (by omega : d ≤ i + 1)]
          have hc2 : c2 = digitChar9 (i + 1) := by
            rw [← hdi1]
            exact digitVal_inj c2 d hdv
          rw [scan2, if_pos ⟨rfl, hc2⟩]
          rw [scan2_substUpTo_step vals i hi hvals rest hrest]
          rw [hdi1]
        · rw [if_neg hdi, if_neg (by omega : ¬ d ≤ i + 1)]
          have hc2ne : c2 ≠ digitChar9 (i + 1) := by
            intro hh
            rw [hh, digitVal_digitChar9 (i + 1) (by omega) hi] at hdv
            injection hdv with hdd
            exact hdi1 hdd.symm
          rw [scan2, if_neg (fun hp : '%' = '%' ∧ c2 = digitChar9 (i + 1) => hc2ne hp.2)]
          rw [scan2_cons_ne _ _ _ _ _ (digitVal_ne_pct c2 d hdv)]
          rw [scan2_substUpTo_step vals i hi hvals rest hrest]
    · rw [clean9_nonpct c c2 rest hc] at h
      rw [substUpTo_nonpct i vals c c2 rest hc, substUpTo_nonpct (i + 1) vals c c2 rest hc]
      rw [scan2_cons_ne _ _ _ _ _ hc]
      rw [scan2_substUpTo_step vals i hi hvals (c2 :: rest) h]

theorem repr_digit (i : Nat) (h1 : 1 ≤ i) (h9 : i ≤ 9) :
    (Nat.repr i).data = [digitChar9 i] := by
  interval_cases i <;> decide

theorem tokStr_digit (i : Nat) (h1 : 1 ≤ i) (h9 : i ≤ 9) :
    (tokStr '%' i).data = ['%', digitChar9 i] := by
  show '%' :: (Nat.repr i).data = ['%', digitChar9 i]
  rw [repr_digit i h1 h9]

theorem resolveLoop_go (cells : Nat → Option String) (s0 : List Char)
    (hclean : clean9 s0 = true) (hvals : ∀ d, noPct (cellVals cells d) = true) :
    ∀ (k i0 : Nat) (acc : String), acc.data = substUpTo i0 (cellVals cells) s0 →
      i0 + k ≤ 9 →
      resolveLoop '%' cells (i0 + 1) k acc =
        (match (List.range' (i0 + 1) k).find? (fun i => (cells (i - 1)).isNone) with
          | some i => .error (.cellNotString i)
          | none => .ok ⟨substUpTo (i0 + k) (cellVals cells) s0⟩) := by
  intro k
  induction k with
  | zero =>
    intro i0 acc hacc _
    show Except.ok acc = _
    rcases acc with ⟨l⟩
    rw [show (String.mk l).data = l from rfl] at hacc
    rw [hacc]
    rfl
  | succ k ih =>
    intro i0 acc hacc hle
    show (match cells (i0 + 1 - 1) with
      | none => Except.error (Err.cellNotString (i0 + 1))
      | some v => resolveLoop '%' cells (i0 + 1 + 1) k
          (strReplace acc (tokStr '%' (i0 + 1)) v)) = _
    rcases hcell : cells i0 with _ | v
    · rw [show i0 + 1 - 1 = i0 from rfl, hcell]
      rw [List.range'_succ]
      rw [List.find?_cons_of_pos _ (by rw [show i0 + 1 - 1 = i0 from rfl, hcell]; rfl)]
    · rw [show i0 + 1 - 1 = i0 from rfl, hcell]
      have hacc2 : (strReplace acc (tokStr '%' (i0 + 1)) v).data =
          substUpTo (i0 + 1) (cellVals cells) s0 := by
        show replaceL (tokStr '%' (i0 + 1)).data v.data acc.data = _
        rw [tokStr_digit (i0 + 1) (by omega) (by omega)]
        rw [replaceL_eq_scan2, hacc]
        rw [show v.data = cellVals cells (i0 + 1) by rw [cellVals, show i0 + 1 - 1 = i0 from rfl, hcell]; rfl]
        exact scan2_substUpTo_step (cellVals cells) i0 (by omega) hvals s0 hclean
      have hrec := ih (i0 + 1) _ hacc2 (by omega)
      show resolveLoop '%' cells (i0 + 1 + 1) k (strReplace acc (tokStr '%' (i0 + 1)) v) = _
      rw [hrec]
      rw [List.range'_succ]
      rw [List.find?_cons_of_neg _ (by rw [show i0 + 1 - 1 = i0 from rfl, hcell]; simp)]
      rw [show i0 + 1 + k = i0 + (k + 1) by omega]

/-- C6 (counterexample): on the template `"%1%2"` with adjacent cell
values `v1 = "%2"` and `v2 = "B"`, `resolve_placeholders` returns `"BB"`:
the sequential `replace` loop re-substitutes the `%2` that the first
value injected, so the result is not the template with each `%i`
replaced by `vi` (which is `"%2B"`). -/
theorem c6_cascade_counterexample :
    resolve_placeholders "%1%2" '%' cexCells = .ok "BB" ∧
    substUpTo 2 (cellVals cexCells) "%1%2".data = "%2B".data ∧
    ("BB" : String) ≠ "%2B" :=
  ⟨by decide, by decide, by decide⟩

/-- C6 (amended): for every template in which every `'%'` is followed by
a digit `1`–`9` and at most nine `'%'` occurrences, and every run of
adjacent cells whose values contain no `'%'`, `resolve_placeholders`
yields the *simultaneous* substitution of the template — every token `%d`
(the `'%'` and the single digit after it) replaced by the value of the
`d`-th cell — and it fails deterministically (at the first offending loop
index) exactly when some cell among the first `count('%')` is empty.
Values containing `'%'` are re-scanned by later iterations, and a
multi-digit index is read as its first digit; both are outside this
contract. -/
theorem c6_resolve_placeholders_characterisation (template : String)
    (cells : Nat → Option String) (hclean : clean9 template.data = true)
    (hn : countChar template '%' ≤ 9)
    (hvals : ∀ d, noPct (cellVals cells d) = true) :
    resolve_placeholders template '%' cells =
      (match (List.range' 1 (countChar template '%')).find?
          (fun i => (cells (i - 1)).isNone) with
        | some i => .error (.cellNotString i)
        | none => .ok ⟨substUpTo (countChar template '%') (cellVals cells) template.data⟩) := by
  rw [resolve_placeholders]
  have h := resolveLoop_go cells template.data hclean hvals (countChar template '%') 0
    template (substUpTo_zero (cellVals cells) template.data hclean).symm (by omega)
  simp only [Nat.zero_add] at h
  exact h

/-- C6 (witness): the characterisation at the template `"%1 and %2"` with
cells `"abc"`, `"xyz"`, which resolves to `"abc and xyz"`. -/
theorem c6_resolve_placeholders_witness :
    (resolve_placeholders "%1 and %2" '%' exCells =
      (match (List.range' 1 (countChar "%1 and %2" '%')).find?
          (fun i => (exCells (i - 1)).isNone) with
        | some i => .error (.cellNotString i)
        | none => .ok ⟨substUpTo (countChar "%1 and %2" '%') (cellVals exCells)
            "%1 and %2".data⟩)) ∧
    resolve_placeholders "%1 and %2" '%' exCells = .ok "abc and xyz" := by
  constructor
  · exact c6_resolve_placeholders_characterisation "%1 and %2" exCells (by decide) (by decide)
      (by
        intro d
        rw [cellVals]
        rcases hd : exCells (d - 1) with _ | v
        · decide
        · rw [exCells] at hd
          by_cases h1 : d - 1 = 0
          · rw [if_pos h1] at hd
            injection hd with hv
            subst hv
            decide
          · rw [if_neg h1] at hd
            by_cases h2 : d - 1 = 1
            · rw [if_pos h2] at hd
              injection hd with hv
              subst hv
              decide
            · rw [if_neg h2] at hd
              exact Option.noConfusion hd)
  · decide

theorem substLoop_go (args : List String) (s0 : List Char)
    (hclean : clean9 s0 = true) (hargs : ∀ d, noPct (argVals args d) = true) :
    ∀ (rest : List String) (i0 : Nat) (acc : String), rest = args.drop i0 →
      acc.data = substUpTo i0 (argVals args) s0 → i0 + rest.length ≤ 9 →
      (substLoop '%' (i0 + 1) rest acc).data =
        substUpTo (i0 + rest.length) (argVals args) s0 := by
  intro rest
  induction rest with
  | nil =>
    intro i0 acc _ hacc _
    rw [show substLoop '%' (i0 + 1) [] acc = acc from rfl, hacc]
    rfl
  | cons x rest' ih =>
    intro i0 acc hdrop hacc hle
    have hx : args.get? i0 = some x := by
      have h0 : (args.drop i0).get? 0 = some x := by rw [← hdrop]; rfl
      rw [List.get?_drop, Nat.add_zero] at h0
      exact h0
    have hdrop' : rest' = args.drop (i0 + 1) := by
      rw [← List.tail_drop args i0, ← hdrop]
      rfl
    rw [show substLoop '%' (i0 + 1) (x :: rest') acc =
      substLoop '%' (i0 + 1 + 1) rest' (strReplace acc (tokStr '%' (i0 + 1)) x) from rfl]
    have hlen : (x :: rest').length = rest'.length + 1 := rfl
    have hacc2 : (strReplace acc (tokStr '%' (i0 + 1)) x).data =
        substUpTo (i0 + 1) (argVals args) s0 := by
      show replaceL (tokStr '%' (i0 + 1)).data x.data acc.data = _
      rw [tokStr_digit (i0 + 1) (by omega) (by simp [hlen] at hle; omega)]
      rw [replaceL_eq_scan2, hacc]
      rw [show x.data = argVals args (i0 + 1) by
        rw [argVals, show i0 + 1 - 1 = i0 from rfl, hx]; rfl]
      exact scan2_substUpTo_step (argVals args) i0 (by simp [hlen] at hle; omega) hargs s0 hclean
    have hrec := ih (i0 + 1) _ hdrop' hacc2 (by simp [hlen] at hle; omega)
    rw [hrec]
    rw [show i0 + 1 + rest'.length = i0 + (x :: rest').length by rw [hlen]; omega]

/-- C10 (counterexample): with request-body template `"%1"` and arguments
`["%2", "B"]`, `read_api_params` returns body `"B"`: the first
substitution injects `"%2"` and the second iteration substitutes *it*,
so the result is not obtained by substituting exactly the template's own
tokens `%1..%len(args)` with the corresponding values (which gives
`"%2"`). -/
theorem c10_cascade_counterexample :
    read_api_params (mkSheet [[some "ec2", some "r1", some "ListX", some "%1"]]) 1 1
        ["%2", "B"] =
      .ok { api_name := some "ec2", region_name := some "r1", action_name := some "ListX",
            request_params := "B" } ∧
    substUpTo 2 (argVals ["%2", "B"]) "%1".data = "%2".data ∧
    ("B" : String) ≠ "%2" :=
  ⟨by decide, by decide, by decide⟩

/-- C10 (amended): for every call-operand row whose request-params cell
holds a template in which every `'%'` is followed by a digit `1`–`9`, and
an argument list of at most nine `'%'`-free values, `read_api_params`
substitutes every token `%d` with `d ≤ len(args)` by the `d`-th argument
(simultaneously — each index read as the single digit after `'%'`),
leaves every token whose index exceeds `len(args)` unchanged in the
returned body, and raises no error; the other three operand cells are
passed through unchanged. -/
theorem c10_read_api_params_characterisation (ws : Sheet) (row col : Nat)
    (args : List String) (req : String) (hreq : ws.val row (col + 3) = some req)
    (hclean : clean9 req.data = true) (hlen : args.length ≤ 9)
    (hargs : ∀ d, noPct (argVals args d) = true) :
    read_api_params ws row col args =
      .ok { api_name := ws.val row col
            region_name := ws.val row (col + 1)
            action_name := ws.val row (col + 2)
            request_params := ⟨substUpTo args.length (argVals args) req.data⟩ } := by
  rw [read_api_params, hreq]
  have h := substLoop_go args req.data hclean hargs args 0 req rfl
    (substUpTo_zero (argVals args) req.data hclean).symm (by omega)
  simp only [Nat.zero_add] at h
  have h2 : substLoop '%' 1 args req =
      ⟨substUpTo args.length (argVals args) req.data⟩ := by
    rcases hs : substLoop '%' 1 args req with ⟨l⟩
    rw [show substLoop '%' (0 + 1) args req = substLoop '%' 1 args req from rfl, hs] at h
    rw [show (String.mk l).data = l from rfl] at h
    rw [h]
  show Except.ok
      { api_name := ws.val row col
        region_name := ws.val row (col + 1)
        action_name := ws.val row (col + 2)
        request_params := substLoop '%' 1 args req } =
    (Except.ok
      { api_name := ws.val row col
        region_name := ws.val row (col + 1)
        action_name := ws.val row (col + 2)
        request_params := (⟨substUpTo args.length (argVals args) req.data⟩ : String) } :
      Except Err Request)
  rw [h2]

/-- C10 (witness): the characterisation at a concrete operand row with
body `"{\x7bKey\x7d: \x7b%1\x7d}"`-style template `"a=%1,b=%2,c=%3"` and two
arguments. -/
theorem c10_read_api_params_witness :
    read_api_params (mkSheet [[some "s3", some "r2", some "ListY", some "a=%1,b=%2,c=%3"]])
        1 1 ["u", "v"] =
      .ok { api_name := some "s3", region_name := some "r2", action_name := some "ListY",
            request_params := ⟨substUpTo 2 (argVals ["u", "v"]) "a=%1,b=%2,c=%3".data⟩ } ∧
    (⟨substUpTo 2 (argVals ["u", "v"]) "a=%1,b=%2,c=%3".data⟩ : String) = "a=u,b=v,c=%3" := by
  constructor
  · exact c10_read_api_params_characterisation
      (mkSheet [[some "s3", some "r2", some "ListY", some "a=%1,b=%2,c=%3"]]) 1 1 ["u", "v"]
      "a=%1,b=%2,c=%3" (by decide) (by decide) (by decide)
      (by
        intro d
        rw [argVals]
        rcases hd : ["u", "v"].get? (d - 1) with _ | v
        · decide
        · have hmem := List.get?_mem hd
          rcases List.mem_cons.mp hmem with hv | hv
          · subst hv; decide
          · rcases List.mem_cons.mp hv with hv2 | hv2
            · subst hv2; decide
            · simp at hv2)
  · decide

theorem setCell_val_same (ws : Sheet) (r c : Nat) (v : Option String) :
    (setCell ws r c v).val r c = v := by
  rw [setCell]
  show (if r = r ∧ c = c then v else ws.val r c) = v
  rw [if_pos ⟨rfl, rfl⟩]

theorem setCell_val_ne (ws : Sheet) (r c r' c' : Nat) (v : Option String)
    (h : ¬ (r' = r ∧ c' = c)) :
    (setCell ws r c v).val r' c' = ws.val r' c' := by
  rw [setCell]
  show (if r' = r ∧ c' = c then v else ws.val r' c') = ws.val r' c'
  rw [if_neg h]

theorem foldWrites_val_nomem (rr cc : Nat) :
    ∀ (items : List WItem) (ws : Sheet),
    (∀ it ∈ items, ¬ (it.row = rr ∧ it.dst = cc)) →
    (foldWrites ws items).val rr cc = ws.val rr cc := by
  intro items
  induction items with
  | nil => intro ws _; rfl
  | cons it rest ih =>
    intro ws h
    show (foldWrites (setCell ws it.row it.dst (it.f (ws.val it.row it.src))) rest).val rr cc
      = ws.val rr cc
    rw [ih _ (fun x hx => h x (List.mem_cons_of_mem it hx))]
    rw [setCell_val_ne ws it.row it.dst rr cc _ (by
      intro hh
      exact h it (List.mem_cons_self it rest) ⟨hh.1.symm, hh.2.symm⟩)]

theorem foldWrites_val_mem :
    ∀ (items : List WItem) (ws : Sheet) (it : WItem), it ∈ items →
    items.Pairwise (fun x y => (x.row, x.dst) ≠ (y.row, y.dst)) →
    (∀ x ∈ items, ∀ y ∈ items, (x.row, x.src) ≠ (y.row, y.dst)) →
    (foldWrites ws items).val it.row it.dst = it.f (ws.val it.row it.src) := by
  intro items
  induction items with
  | nil => intro ws it hmem; exact absurd hmem (by simp)
  | cons it0 rest ih =>
    intro ws it hmem hpair hsrc
    have hpair2 := List.pairwise_cons.mp hpair
    show (foldWrites (setCell ws it0.row it0.dst (it0.f (ws.val it0.row it0.src))) rest).val
      it.row it.dst = it.f (ws.val it.row it.src)
    rcases List.mem_cons.mp hmem with rfl | hmem2
    · rw [foldWrites_val_nomem it.row it.dst rest _ (fun x hx => by
        intro hh
        exact hpair2.1 x hx (by rw [hh.1, hh.2]))]
      exact setCell_val_same ws it.row it.dst _
    · rw [ih _ it hmem2 hpair2.2
        (fun x hx y hy => hsrc x (List.mem_cons_of_mem it0 hx) y (List.mem_cons_of_mem it0 hy))]
      rw [setCell_val_ne ws it0.row it0.dst it.row it.src _ (by
        intro hh
        exact hsrc it hmem it0 (List.mem_cons_self it0 rest) (by rw [hh.1, hh.2]))]

theorem foldWrites_maxRow_ge (items : List WItem) (ws : Sheet) :
    ws.maxRow ≤ (foldWrites ws items).maxRow := by
  induction items generalizing ws with
  | nil => exact Nat.le_refl _
  | cons it rest ih =>
    show ws.maxRow ≤ (foldWrites (setCell ws it.row it.dst _) rest).maxRow
    have h1 : ws.maxRow ≤ (setCell ws it.row it.dst (it.f (ws.val it.row it.src))).maxRow :=
      Nat.le_max_left _ _
    exact Nat.le_trans h1 (ih _)

theorem foldWrites_maxCol_ge (items : List WItem) (ws : Sheet) :
    ws.maxCol ≤ (foldWrites ws items).maxCol := by
  induction items generalizing ws with
  | nil => exact Nat.le_refl _
  | cons it rest ih =>
    show ws.maxCol ≤ (foldWrites (setCell ws it.row it.dst _) rest).maxCol
    have h1 : ws.maxCol ≤ (setCell ws it.row it.dst (it.f (ws.val it.row it.src))).maxCol :=
      Nat.le_max_left _ _
    exact Nat.le_trans h1 (ih _)

theorem foldWrites_maxCol_le (B : Nat) :
    ∀ (items : List WItem) (ws : Sheet), (∀ it ∈ items, it.dst ≤ B) → ws.maxCol ≤ B →
    (foldWrites ws items).maxCol ≤ B := by
  intro items
  induction items with
  | nil => intro ws _ h; exact h
  | cons it rest ih =>
    intro ws hdst hws
    show (foldWrites (setCell ws it.row it.dst _) rest).maxCol ≤ B
    refine ih _ (fun x hx => hdst x (List.mem_cons_of_mem it hx)) ?_
    show max ws.maxCol it.dst ≤ B
    exact Nat.max_le.mpr ⟨hws, hdst it (List.mem_cons_self it rest)⟩

theorem foldWrites_maxCol_mem :
    ∀ (items : List WItem) (ws : Sheet) (it : WItem), it ∈ items →
    it.dst ≤ (foldWrites ws items).maxCol := by
  intro items
  induction items with
  | nil => intro ws it hmem; exact absurd hmem (by simp)
  | cons it0 rest ih =>
    intro ws it hmem
    rcases List.mem_cons.mp hmem with rfl | hmem2
    · show it.dst ≤ (foldWrites (setCell ws it.row it.dst _) rest).maxCol
      refine Nat.le_trans ?_ (foldWrites_maxCol_ge rest _)
      exact Nat.le_max_right _ _
    · exact ih _ it hmem2

theorem foldBlank_preserve_none (rr cc : Nat) :
    ∀ (ps : List (Nat × Nat)) (ws : Sheet), ws.val rr cc = none →
    (foldBlank ws ps).val rr cc = none := by
  intro ps
  induction ps with
  | nil => intro ws h; exact h
  | cons p rest ih =>
    intro ws h
    show (foldBlank (setCell ws p.1 p.2 none) rest).val rr cc = none
    refine ih _ ?_
    by_cases hp : rr = p.1 ∧ cc = p.2
    · rw [hp.1, hp.2]; exact setCell_val_same ws p.1 p.2 none
    · rw [setCell_val_ne ws p.1 p.2 rr cc none hp]; exact h

theorem foldBlank_mem (rr cc : Nat) :
    ∀ (ps : List (Nat × Nat)) (ws : Sheet), (rr, cc) ∈ ps →
    (foldBlank ws ps).val rr cc = none := by
  intro ps
  induction ps with
  | nil => intro ws hmem; exact absurd hmem (by simp)
  | cons p rest ih =>
    intro ws hmem
    show (foldBlank (setCell ws p.1 p.2 none) rest).val rr cc = none
    rcases List.mem_cons.mp hmem with rfl | hmem2
    · exact foldBlank_preserve_none rr cc rest _ (setCell_val_same ws rr cc none)
    · exact ih _ hmem2

theorem foldBlank_nomem (rr cc : Nat) :
    ∀ (ps : List (Nat × Nat)) (ws : Sheet), (rr, cc) ∉ ps →
    (foldBlank ws ps).val rr cc = ws.val rr cc := by
  intro ps
  induction ps with
  | nil => intro ws _; rfl
  | cons p rest ih =>
    intro ws hmem
    show (foldBlank (setCell ws p.1 p.2 none) rest).val rr cc = ws.val rr cc
    rcases p with ⟨p1, p2⟩
    rw [ih _ (fun hh => hmem (List.mem_cons_of_mem _ hh))]
    refine setCell_val_ne ws p1 p2 rr cc none ?_
    intro hh
    apply hmem
    rw [hh.1, hh.2]
    exact List.mem_cons_self _ _

theorem mem_blankPositions (maxR minC maxC rr cc : Nat) :
    (rr, cc) ∈ blankPositions maxR minC maxC ↔
      1 ≤ rr ∧ rr ≤ maxR ∧ minC ≤ cc ∧ cc ≤ maxC := by
  rw [blankPositions]
  simp only [List.mem_flatMap, List.mem_map, List.mem_range'_1, Prod.mk.injEq]
  constructor
  · rintro ⟨x, ⟨hx1, hx2⟩, y, ⟨hy1, hy2⟩, hxy1, hxy2⟩
    subst hxy1; subst hxy2
    omega
  · rintro ⟨h1, h2, h3, h4⟩
    exact ⟨rr, ⟨by omega, by omega⟩, cc, ⟨by omega, by omega⟩, rfl, rfl⟩

theorem mem_replicaItems (tr : String → Nat × Nat → Nat × Nat → String)
    (t b l r w count : Nat) (it : WItem) :
    it ∈ replicaItems tr t b l r w count ↔
      ∃ i j row, 1 ≤ i ∧ i ≤ count ∧ j < w ∧ t ≤ row ∧ row ≤ b ∧
        it = { row := row, dst := r + (i - 1) * w + 1 + j, src := l + j,
               f := copyCell tr t i row (l + j) row (r + (i - 1) * w + 1 + j) } := by
  rw [replicaItems]
  simp only [List.mem_flatMap, List.mem_map, List.mem_range'_1]
  constructor
  · rintro ⟨i, ⟨hi1, hi2⟩, j, ⟨hj1, hj2⟩, row, ⟨hr1, hr2⟩, heq⟩
    exact ⟨i, j, row, by omega, by omega, by omega, by omega, by omega, heq.symm⟩
  · rintro ⟨i, j, row, hi1, hi2, hj, hr1, hr2, heq⟩
    exact ⟨i, ⟨by omega, by omega⟩, j, ⟨by omega, by omega⟩, row, ⟨by omega, by omega⟩, heq.symm⟩

theorem replica_dst_inj (w i1 j1 i2 j2 : Nat) (hw : 1 ≤ w) (hi1 : 1 ≤ i1) (hi2 : 1 ≤ i2)
    (hj1 : j1 < w) (hj2 : j2 < w)
    (h : (i1 - 1) * w + j1 = (i2 - 1) * w + j2) : i1 = i2 ∧ j1 = j2 := by
  rcases Nat.lt_trichotomy i1 i2 with hlt | heq | hgt
  · exfalso
    have hstep : (i1 - 1) * w + w ≤ (i2 - 1) * w := by
      have h1 : i1 - 1 + 1 ≤ i2 - 1 := by omega
      calc (i1 - 1) * w + w = (i1 - 1 + 1) * w := by rw [Nat.succ_mul]
        _ ≤ (i2 - 1) * w := Nat.mul_le_mul_right w h1
    omega
  · constructor
    · exact heq
    · subst heq; omega
  · exfalso
    have hstep : (i2 - 1) * w + w ≤ (i1 - 1) * w := by
      have h1 : i2 - 1 + 1 ≤ i1 - 1 := by omega
      calc (i2 - 1) * w + w = (i2 - 1 + 1) * w := by rw [Nat.succ_mul]
        _ ≤ (i1 - 1) * w := Nat.mul_le_mul_right w h1
    omega

theorem replica_dst_le (w i j r count : Nat) (hw : 1 ≤ w) (hi1 : 1 ≤ i) (hi2 : i ≤ count)
    (hj : j < w) : r + (i - 1) * w + 1 + j ≤ r + count * w := by
  have h1 : (i - 1) * w ≤ (count - 1) * w := Nat.mul_le_mul_right w (by omega)
  have h2 : (count - 1) * w + w = count * w := by
    calc (count - 1) * w + w = (count - 1 + 1) * w := by rw [Nat.succ_mul]
      _ = count * w := by rw [show count - 1 + 1 = count by omega]
  omega

theorem replicaItems_pairwise (tr : String → Nat × Nat → Nat × Nat → String)
    (t b l r w count : Nat) (hw : 1 ≤ w) :
    (replicaItems tr t b l r w count).Pairwise
      (fun x y => (x.row, x.dst) ≠ (y.row, y.dst)) := by
  rw [replicaItems, List.pairwise_flatMap]
  constructor
  · intro i hi
    rw [List.pairwise_flatMap]
    constructor
    · intro j hj
      rw [List.pairwise_map]
      refine List.Pairwise.imp_of_mem ?_ (List.pairwise_lt_range' t (b + 1 - t))
      intro a c _ _ hac hkey
      have h1 := congrArg Prod.fst hkey
      simp only at h1
      omega
    · refine List.Pairwise.imp_of_mem ?_ (List.pairwise_lt_range' 0 w)
      intro j1 j2 hm1 hm2 hlt x hx y hy hkey
      rw [List.mem_range'_1] at hm1 hm2
      rw [List.mem_map] at hx hy
      obtain ⟨row1, _, rfl⟩ := hx
      obtain ⟨row2, _, rfl⟩ := hy
      have h2 := congrArg Prod.snd hkey
      simp only at h2
      rw [List.mem_range'_1] at hi
      have := replica_dst_inj w i j1 i j2 hw (by omega) (by omega) (by omega) (by omega)
        (by omega)
      omega
  · refine List.Pairwise.imp_of_mem ?_ (List.pairwise_lt_range' 1 count)
    intro i1 i2 hm1 hm2 hlt x hx y hy hkey
    rw [List.mem_range'_1] at hm1 hm2
    rw [List.mem_flatMap] at hx hy
    obtain ⟨j1, hj1, hx2⟩ := hx
    obtain ⟨j2, hj2, hy2⟩ := hy
    rw [List.mem_range'_1] at hj1 hj2
    rw [List.mem_map] at hx2 hy2
    obtain ⟨row1, _, rfl⟩ := hx2
    obtain ⟨row2, _, rfl⟩ := hy2
    have h2 := congrArg Prod.snd hkey
    simp only at h2
    have := replica_dst_inj w i1 j1 i2 j2 hw (by omega) (by omega) (by omega) (by omega)
      (by omega)
    omega

theorem replicaItems_src_ne (tr : String → Nat × Nat → Nat × Nat → String)
    (t b l r w count : Nat) (hlw : l + w = r + 1) :
    ∀ x ∈ replicaItems tr t b l r w count, ∀ y ∈ replicaItems tr t b l r w count,
      (x.row, x.src) ≠ (y.row, y.dst) := by
  intro x hx y hy
  obtain ⟨i1, j1, row1, _, _, hj1, _, _, rfl⟩ := (mem_replicaItems tr t b l r w count x).mp hx
  obtain ⟨i2, j2, row2, _, _, hj2, _, _, rfl⟩ := (mem_replicaItems tr t b l r w count y).mp hy
  intro hkey
  have h2 := congrArg Prod.snd hkey
  simp only at h2
  omega

theorem find_column_symbol_ok (ws : Sheet) (sym : String) (row col c : Nat)
    (h : find_column_symbol ws sym row col = .ok c) :
    col ≤ c ∧ c ≤ ws.maxCol := by
  rw [find_column_symbol] at h
  rcases hf : (List.range' col (ws.maxCol + 1 - col)).find?
      (fun cc => ws.val row cc == some sym) with _ | c2
  · rw [hf] at h
    exact Except.noConfusion h
  · rw [hf] at h
    injection h with hc
    subst hc
    have hmem := List.mem_of_find?_eq_some hf
    rw [List.mem_range'_1] at hmem
    omega

theorem findFormAux_cons (ws : Sheet) (x : Nat) (rows : List Nat)
    (st : Option (Nat × Nat × Nat)) :
    findFormAux ws (x :: rows) st =
      (if ws.val x 1 = some "%top" then
        match findFormTop ws x with
        | .error e => .error e
        | .ok (l, rt) => findFormAux ws rows (some (x, l, rt))
      else if ws.val x 1 = some "%bottom" then
        match st with
        | some (t, l, rt) => .ok (t, x, l, rt)
        | none => .error .nameUnbound
      else findFormAux ws rows st) := rfl

theorem findFormTop_ok (ws : Sheet) (row l r : Nat)
    (h : findFormTop ws row = .ok (l, r)) :
    1 ≤ l ∧ l ≤ r ∧ r ≤ ws.maxCol := by
  rw [findFormTop] at h
  rcases hfl : find_column_symbol ws "%left" row 1 with e | lc
  · rw [hfl] at h
    exact Except.noConfusion h
  rw [hfl] at h
  simp only [] at h
  rcases hfr : find_column_symbol ws "%right" row lc with e | rc
  · rw [hfr] at h
    exact Except.noConfusion h
  rw [hfr] at h
  injection h with hh
  have e1 : lc = l := congrArg Prod.fst hh
  have e2 : rc = r := congrArg Prod.snd hh
  have hb1 := find_column_symbol_ok ws "%left" row 1 lc hfl
  have hb2 := find_column_symbol_ok ws "%right" row lc rc hfr
  omega

theorem findFormAux_facts (ws : Sheet) :
    ∀ (rows : List Nat) (st : Option (Nat × Nat × Nat)) (t b l r : Nat),
    (∀ x ∈ rows, 1 ≤ x ∧ x ≤ ws.maxRow) →
    rows.Pairwise (· < ·) →
    (∀ t0 l0 r0, st = some (t0, l0, r0) →
      1 ≤ t0 ∧ l0 ≤ r0 ∧ r0 ≤ ws.maxCol ∧ ∀ x ∈ rows, t0 < x) →
    findFormAux ws rows st = .ok (t, b, l, r) →
    1 ≤ t ∧ t < b ∧ b ≤ ws.maxRow ∧ l ≤ r ∧ r ≤ ws.maxCol := by
  intro rows
  induction rows with
  | nil =>
    intro st t b l r _ _ _ h
    cases st with
    | none => exact Except.noConfusion h
    | some x => exact Except.noConfusion h
  | cons x rows ih =>
    intro st t b l r hbound hpair hst h
    have hbx := hbound x (List.mem_cons_self _ _)
    have hpair2 := List.pairwise_cons.mp hpair
    rw [findFormAux_cons] at h
    by_cases htop : ws.val x 1 = some "%top"
    · rw [if_pos htop] at h
      rcases hft : findFormTop ws x with e | lr
      · rw [hft] at h
        exact Except.noConfusion h
      rcases lr with ⟨lc, rc⟩
      rw [hft] at h
      simp only [] at h
      have hb12 := findFormTop_ok ws x lc rc hft
      exact ih (some (x, lc, rc)) t b l r
        (fun y hy => hbound y (List.mem_cons_of_mem _ hy)) hpair2.2
        (fun t0 l0 r0 hs => by
          injection hs with hs2
          have e1 : x = t0 := congrArg Prod.fst hs2
          have e2 : lc = l0 := congrArg (fun p => p.2.1) hs2
          have e3 : rc = r0 := congrArg (fun p => p.2.2) hs2
          subst e1; subst e2; subst e3
          exact ⟨by omega, by omega, by omega, hpair2.1⟩) h
    · rw [if_neg htop] at h
      by_cases hbot : ws.val x 1 = some "%bottom"
      · rw [if_pos hbot] at h
        cases st with
        | none => exact Except.noConfusion h
        | some tlr =>
          rcases tlr with ⟨t0, l0, r0⟩
          have hst0 := hst t0 l0 r0 rfl
          injection h with hh
          have e1 : t0 = t := congrArg Prod.fst hh
          have e2 : x = b := congrArg (fun p => p.2.1) hh
          have e3 : l0 = l := congrArg (fun p => p.2.2.1) hh
          have e4 : r0 = r := congrArg (fun p => p.2.2.2) hh
          have htx := hst0.2.2.2 x (List.mem_cons_self _ _)
          exact ⟨by omega, by omega, by omega, by omega, by omega⟩
      · rw [if_neg hbot] at h
        exact ih st t b l r (fun y hy => hbound y (List.mem_cons_of_mem _ hy)) hpair2.2
          (fun t0 l0 r0 hs => by
            have hst0 := hst t0 l0 r0 hs
            exact ⟨hst0.1, hst0.2.1, hst0.2.2.1,
              fun y hy => hst0.2.2.2 y (List.mem_cons_of_mem _ hy)⟩) h

theorem find_form_facts (ws : Sheet) (t b l r : Nat)
    (h : find_form ws = .ok (t, b, l, r)) :
    1 ≤ t ∧ t < b ∧ b ≤ ws.maxRow ∧ l ≤ r ∧ r ≤ ws.maxCol := by
  refine findFormAux_facts ws (List.range' 1 ws.maxRow) none t b l r ?_ ?_ ?_ h
  · intro x hx
    rw [List.mem_range'_1] at hx
    omega
  · exact List.pairwise_lt_range' 1 ws.maxRow
  · intro t0 l0 r0 hs
    exact Option.noConfusion hs

/-- C3 (counterexample): on a worksheet whose form occupies rows 1–2 and
columns 2–3 and which holds leftover content `"x"` at row 3, column 8 —
beyond the single replica's bound (column `3 + 1*(3+1-2) = 5`) and below
the form's bottom row 2 — `copy_form` with `N = 1` succeeds but leaves the
leftover cell intact: the final blanking loop only covers rows up to the
form's bottom row (`iter_rows(..., max_row=bottom)`), so "every cell beyond
the last replica's bound is empty, regardless of the sheet's contents
before the run" is false. -/
theorem c3_stale_cell_counterexample :
    find_form exS3 = .ok (1, 2, 2, 3) ∧
    isOkE (copy_form exTr exS3 1) = true ∧
    3 + 1 * (3 + 1 - 2) < 8 ∧ 2 < 3 ∧
    exS3after.val 3 8 = some "x" :=
  ⟨by decide, by decide, by decide, by decide, by decide⟩

/-- C3 (amended): for every worksheet in which `find_form` locates a form
`(t, b, l, r)` and every replica count `N ≥ 0`, `copy_form` succeeds and
produces `copyFormSheet`, for which: (1) every cell in columns `≤ r` is
unchanged; (2) the `N` replicas are laid out contiguously right of the
template — replica `i` (`1 ≤ i ≤ N`) holds, at column `r + (i-1)*w + 1 + j`
(`w = r+1-l`, `0 ≤ j < w`) of each form row, exactly the `copyCell` image of
the template cell at column `l + j` of that row; (3) every cell of a row
`≤ b` beyond the last replica's bound (column `> r + N*w`) is empty; but
(4) rows strictly above the form's top row are unchanged up to the last
replica's bound, and (5) rows strictly below the form's bottom row are
completely untouched, so leftover content beyond the last replica survives
there — the claim's "regardless of the sheet's contents before the run"
holds only for rows up to the form's bottom row. -/
theorem c3_copy_form_characterisation
    (tr : String → Nat × Nat → Nat × Nat → String) (ws : Sheet) (count t b l r : Nat)
    (hform : find_form ws = .ok (t, b, l, r)) (hbnd : SheetBounded ws) :
    copy_form tr ws count = .ok (copyFormSheet tr ws t b l r count) ∧
    (∀ row c, c ≤ r →
      (copyFormSheet tr ws t b l r count).val row c = ws.val row c) ∧
    (∀ i j row, 1 ≤ i → i ≤ count → j < r + 1 - l → t ≤ row → row ≤ b →
      (copyFormSheet tr ws t b l r count).val row (r + (i - 1) * (r + 1 - l) + 1 + j) =
        copyCell tr t i row (l + j) row (r + (i - 1) * (r + 1 - l) + 1 + j)
          (ws.val row (l + j))) ∧
    (∀ row c, row ≤ b → r + count * (r + 1 - l) < c →
      (copyFormSheet tr ws t b l r count).val row c = none) ∧
    (∀ row c, row < t → c ≤ r + count * (r + 1 - l) →
      (copyFormSheet tr ws t b l r count).val row c = ws.val row c) ∧
    (∀ row c, b < row →
      (copyFormSheet tr ws t b l r count).val row c = ws.val row c) := by
  obtain ⟨ht1, htb, hbmax, hlr, hrmax⟩ := find_form_facts ws t b l r hform
  have hw : 1 ≤ r + 1 - l := by omega
  have hdef : copyFormSheet tr ws t b l r count =
      foldBlank (foldWrites ws (replicaItems tr t b l r (r + 1 - l) count))
        (blankPositions b (r + count * (r + 1 - l) + 1)
          (foldWrites ws (replicaItems tr t b l r (r + 1 - l) count)).maxCol) := rfl
  refine ⟨?_, ?_, ?_, ?_, ?_, ?_⟩
  · have h0 : copy_form tr ws count =
        (match find_form ws with
         | .error e => .error e
         | .ok (top, bottom, left, right) =>
           .ok (copyFormSheet tr ws top bottom left right count) : Except Err Sheet) := rfl
    rw [h0, hform]
  · intro row c hc
    rw [hdef]
    rw [foldBlank_nomem row c _ _ (by
      intro hmem
      rw [mem_blankPositions] at hmem
      omega)]
    refine foldWrites_val_nomem row c _ ws ?_
    intro it hit hcon
    obtain ⟨i, j, row2, hi1, hi2, hj, hr1, hr2, rfl⟩ :=
      (mem_replicaItems tr t b l r (r + 1 - l) count it).mp hit
    have e2 : r + (i - 1) * (r + 1 - l) + 1 + j = c := hcon.2
    omega
  · intro i j row hi1 hi2 hj htr hrb
    rw [hdef]
    rw [foldBlank_nomem _ _ _ _ (by
      intro hmem
      rw [mem_blankPositions] at hmem
      have hle := replica_dst_le (r + 1 - l) i j r count hw hi1 hi2 hj
      omega)]
    exact foldWrites_val_mem _ ws _
      ((mem_replicaItems tr t b l r (r + 1 - l) count _).mpr
        ⟨i, j, row, hi1, hi2, hj, htr, hrb, rfl⟩)
      (replicaItems_pairwise tr t b l r _ count hw)
      (replicaItems_src_ne tr t b l r _ count (by omega))
  · intro row c hrow hc
    rw [hdef]
    by_cases hcmax : c ≤ (foldWrites ws (replicaItems tr t b l r (r + 1 - l) count)).maxCol
    · by_cases hr1 : 1 ≤ row
      · exact foldBlank_mem row c _ _
          ((mem_blankPositions b (r + count * (r + 1 - l) + 1) _ row c).mpr
            ⟨hr1, hrow, by omega, hcmax⟩)
      · refine foldBlank_preserve_none row c _ _ ?_
        rw [foldWrites_val_nomem row c _ ws (by
          intro it hit hcon
          obtain ⟨i, j, row2, hi1, hi2, hj, hr2, hr3, rfl⟩ :=
            (mem_replicaItems tr t b l r (r + 1 - l) count it).mp hit
          have e1 : row2 = row := hcon.1
          omega)]
        cases h2 : ws.val row c with
        | none => rfl
        | some s =>
          exact absurd (hbnd row c (by rw [h2]; exact fun hh => Option.noConfusion hh)).1 hr1
    · refine foldBlank_preserve_none row c _ _ ?_
      rw [foldWrites_val_nomem row c _ ws (by
        intro it hit hcon
        have hle := foldWrites_maxCol_mem _ ws it hit
        have e2 : it.dst = c := hcon.2
        omega)]
      have hge := foldWrites_maxCol_ge (replicaItems tr t b l r (r + 1 - l) count) ws
      cases h2 : ws.val row c with
      | none => rfl
      | some s =>
        have hb2 := (hbnd row c (by rw [h2]; exact fun hh => Option.noConfusion hh)).2.2.2
        omega
  · intro row c hrow hc
    rw [hdef]
    rw [foldBlank_nomem row c _ _ (by
      intro hmem
      rw [mem_blankPositions] at hmem
      omega)]
    refine foldWrites_val_nomem row c _ ws ?_
    intro it hit hcon
    obtain ⟨i, j, row2, hi1, hi2, hj, hr2, hr3, rfl⟩ :=
      (mem_replicaItems tr t b l r (r + 1 - l) count it).mp hit
    have e1 : row2 = row := hcon.1
    omega
  · intro row c hrow
    rw [hdef]
    rw [foldBlank_nomem row c _ _ (by
      intro hmem
      rw [mem_blankPositions] at hmem
      omega)]
    refine foldWrites_val_nomem row c _ ws ?_
    intro it hit hcon
    obtain ⟨i, j, row2, hi1, hi2, hj, hr2, hr3, rfl⟩ :=
      (mem_replicaItems tr t b l r (r + 1 - l) count it).mp hit
    have e1 : row2 = row := hcon.1
    omega

theorem lastResp_append_call {Resp V : Type} (tr : List (Ev Resp V)) (resp : Resp) :
    lastResp (tr ++ [Ev.call resp]) = some resp := by
  show (List.filterMap _ (tr ++ [Ev.call resp])).getLast? = some resp
  rw [List.filterMap_append]
  show (List.filterMap _ tr ++ [resp]).getLast? = some resp
  exact List.getLast?_concat _

theorem lastResp_append_output {Resp V : Type} (tr : List (Ev Resp V)) (reg : Option Resp)
    (path : String) (v : Option V) :
    lastResp (tr ++ [Ev.output reg path v]) = lastResp tr := by
  show (List.filterMap _ (tr ++ [Ev.output reg path v])).getLast? = lastResp tr
  rw [List.filterMap_append]
  show (List.filterMap _ tr ++ []).getLast? = lastResp tr
  rw [List.append_nil]
  rfl

theorem RegInv_call {Req Resp V : Type} (findPath : Option Resp → String → List V)
    (st : PState Req Resp V) (cl : Cache Req Resp) (resp : Resp)
    (h : RegInv findPath st) :
    RegInv findPath { st with clients := cl, response := some resp,
                              trace := st.trace ++ [Ev.call resp] } := by
  constructor
  · show some resp = lastResp (st.trace ++ [Ev.call resp])
    rw [lastResp_append_call]
  · intro p reg path v hp
    have hp' : (st.trace ++ [Ev.call resp]).get? p = some (Ev.output reg path v) := hp
    by_cases hlt : p < st.trace.length
    · rw [List.get?_append hlt] at hp'
      have h2 := h.2 p reg path v hp'
      refine ⟨?_, h2.2⟩
      show reg = lastResp ((st.trace ++ [Ev.call resp]).take p)
      rw [List.take_append_of_le_length (Nat.le_of_lt hlt)]
      exact h2.1
    · rw [List.get?_append_right (Nat.le_of_not_lt hlt)] at hp'
      by_cases heq : p - st.trace.length = 0
      · rw [heq] at hp'
        exact absurd (Option.some.inj hp') (fun hh => Ev.noConfusion hh)
      · have hn : ([Ev.call resp] : List (Ev Resp V)).get? (p - st.trace.length) = none :=
          List.get?_eq_none.mpr (by show 1 ≤ p - st.trace.length; omega)
        rw [hn] at hp'
        exact Option.noConfusion hp'

theorem RegInv_output {Req Resp V : Type} (findPath : Option Resp → String → List V)
    (st : PState Req Resp V) (ws2 : Sheet) (path : String)
    (h : RegInv findPath st) :
    RegInv findPath { st with ws := ws2,
                              trace := st.trace ++
                                [Ev.output st.response path
                                  (get_value findPath st.response path)] } := by
  constructor
  · show st.response = lastResp (st.trace ++
      [Ev.output st.response path (get_value findPath st.response path)])
    rw [lastResp_append_output]
    exact h.1
  · intro p reg pth v hp
    have hp' : (st.trace ++
        [Ev.output st.response path (get_value findPath st.response path)]).get? p
        = some (Ev.output reg pth v) := hp
    by_cases hlt : p < st.trace.length
    · rw [List.get?_append hlt] at hp'
      have h2 := h.2 p reg pth v hp'
      refine ⟨?_, h2.2⟩
      show reg = lastResp ((st.trace ++
        [Ev.output st.response path (get_value findPath st.response path)]).take p)
      rw [List.take_append_of_le_length (Nat.le_of_lt hlt)]
      exact h2.1
    · rw [List.get?_append_right (Nat.le_of_not_lt hlt)] at hp'
      by_cases heq : p - st.trace.length = 0
      · rw [heq] at hp'
        have hinj := Option.some.inj hp'
        injection hinj with h1 h2 h3
        constructor
        · show reg = lastResp ((st.trace ++
            [Ev.output st.response path (get_value findPath st.response path)]).take p)
          have hpe : p = st.trace.length := by omega
          rw [hpe, List.take_append_of_le_length (Nat.le_refl _), List.take_length]
          rw [← h1]
          exact h.1
        · rw [← h3, h1, h2]
      · have hn : ([Ev.output st.response path
            (get_value findPath st.response path)] : List (Ev Resp V)).get?
              (p - st.trace.length) = none :=
          List.get?_eq_none.mpr (by show 1 ≤ p - st.trace.length; omega)
        rw [hn] at hp'
        exact Option.noConfusion hp'

theorem procRows_RegInv {Req Resp V : Type} (env : Env Req Resp V) (i : Nat)
    (x : List String) :
    ∀ (rows : List Nat) (left : Option Nat) (st : PState Req Resp V),
    RegInv env.findPath st →
    RegInv env.findPath (procRows env i x rows left st).1 := by
  intro rows
  induction rows with
  | nil => intro left st h; exact h
  | cons r rest ih =>
    intro left st h
    have hstep : procRows env i x (r :: rest) left st =
      (if st.ws.val r 1 = some "%top" then
        match find_column_symbol st.ws ("%left" ++ Nat.repr (i + 1)) r 1 with
        | .error e => (st, .error e)
        | .ok c => procRows env i x rest (some c) st
      else if st.ws.val r 1 = some "%bottom" then (st, .ok ())
      else
        match left with
        | none => procRows env i x rest none st
        | some lcol =>
          if st.ws.val r 1 = some "#call" then
            match find_next_cell st.ws "##" r 1 with
            | .error e => (st, .error e)
            | .ok c =>
              match read_api_params st.ws r c x with
              | .error e => (st, .error e)
              | .ok req =>
                match invoke env.sess env.parse st.clients
                    req.api_name req.region_name req.action_name (some req.request_params) with
                | (cl, _, .error e) => ({ st with clients := cl }, .error e)
                | (cl, _, .ok resp) =>
                  procRows env i x rest left
                    { st with clients := cl
                              response := some resp
                              trace := st.trace ++ [.call resp] }
          else if st.ws.val r 1 = some "#output" then
            match find_next_cell st.ws "##" r 1 with
            | .error e => (st, .error e)
            | .ok c =>
              match read_path st.ws r c with
              | .error e => (st, .error e)
              | .ok path0 =>
                match (if path0.data.contains '%' then
                        match find_next_cell st.ws "###" r 1 with
                        | .error e => Except.error e
                        | .ok pc => resolve_placeholders path0 '%' (fun k => st.ws.val r (pc + k))
                       else Except.ok path0 : Except Err String) with
                | .error e => (st, .error e)
                | .ok path =>
                  match find_next_cell st.ws "####" r lcol with
                  | .error e => (st, .error e)
                  | .ok oc =>
                    procRows env i x rest left
                      { st with
                          ws := setCell st.ws r oc
                            (match get_value env.findPath st.response path with
                             | none => some "=NA()"
                             | some w => some (env.render w))
                          trace := st.trace ++
                            [.output st.response path
                              (get_value env.findPath st.response path)] }
          else procRows env i x rest left st) := rfl
    rw [hstep]
    by_cases htop : st.ws.val r 1 = some "%top"
    · rw [if_pos htop]
      rcases hfc : find_column_symbol st.ws ("%left" ++ Nat.repr (i + 1)) r 1 with e | c
      · exact h
      · exact ih (some c) st h
    · rw [if_neg htop]
      by_cases hbot : st.ws.val r 1 = some "%bottom"
      · rw [if_pos hbot]
        exact h
      · rw [if_neg hbot]
        cases left with
        | none => exact ih none st h
        | some lcol =>
          simp only []
          by_cases hcall : st.ws.val r 1 = some "#call"
          · rw [if_pos hcall]
            rcases hnc : find_next_cell st.ws "##" r 1 with e | c
            · exact h
            · simp only []
              rcases hrp : read_api_params st.ws r c x with e | req
              · exact h
              · simp only []
                rcases hin : invoke env.sess env.parse st.clients
                    req.api_name req.region_name req.action_name (some req.request_params)
                  with ⟨cl, ms, res⟩
                cases res with
                | error e => exact h
                | ok resp => exact ih (some lcol) _ (RegInv_call env.findPath st cl resp h)
          · rw [if_neg hcall]
            by_cases hout : st.ws.val r 1 = some "#output"
            · rw [if_pos hout]
              rcases hnc : find_next_cell st.ws "##" r 1 with e | c
              · exact h
              · simp only []
                rcases hrp : read_path st.ws r c with e | path0
                · exact h
                · simp only []
                  rcases hres : (if path0.data.contains '%' then
                      match find_next_cell st.ws "###" r 1 with
                      | .error e => Except.error e
                      | .ok pc => resolve_placeholders path0 '%' (fun k => st.ws.val r (pc + k))
                     else Except.ok path0 : Except Err String) with e | path
                  · exact h
                  · simp only []
                    rcases hoc : find_next_cell st.ws "####" r lcol with e | oc
                    · exact h
                    · exact ih (some lcol) _
                        (RegInv_output env.findPath st (setCell st.ws r oc _) path h)
            · rw [if_neg hout]
              exact ih (some lcol) st h

theorem procArgs_RegInv {Req Resp V : Type} (env : Env Req Resp V) :
    ∀ (argss : List (List String)) (i : Nat) (st : PState Req Resp V),
    RegInv env.findPath st →
    RegInv env.findPath (procArgs env i argss st).1 := by
  intro argss
  induction argss with
  | nil => intro i st h; exact h
  | cons x rest ih =>
    intro i st h
    have hstep : procArgs env i (x :: rest) st =
      (match procRows env i x (List.range' 1 st.ws.maxRow) none st with
       | (st2, .ok ()) => procArgs env (i + 1) rest st2
       | (st2, .error e) => (st2, .error e)) := rfl
    rw [hstep]
    have hpre := procRows_RegInv env i x (List.range' 1 st.ws.maxRow) none st h
    rcases hpr : procRows env i x (List.range' 1 st.ws.maxRow) none st with ⟨st2, res⟩
    rw [hpr] at hpre
    cases res with
    | ok u =>
      cases u
      exact ih (i + 1) st2 hpre
    | error e => exact hpre

/-- C5: within one `process_worksheet` pass, the response register is a
single shared slot threaded through the directives in document order: in
the state the pass ends in (equally the state it keeps when it aborts),
the register holds the response stored by the most recent Call, and every
recorded Output event read the register exactly as the Calls preceding it
in the trace left it — `none` when no Call preceded it, and otherwise the
most recent preceding Call's response, even when that Call belongs to an
earlier argument set (replica) — and extracted its value from that
register state. -/
theorem c5_response_register_invariant {Req Resp V : Type} (env : Env Req Resp V)
    (clients : Cache Req Resp) (ws : Sheet) (args : List (List String))
    (st : PState Req Resp V) (ex : Except Err Unit)
    (h : process_worksheet env clients ws args = (st, ex)) :
    st.response = lastResp st.trace ∧
    ∀ p reg path v, st.trace.get? p = some (Ev.output reg path v) →
      reg = lastResp (st.trace.take p) ∧ v = get_value env.findPath reg path := by
  have h0 : RegInv env.findPath (process_worksheet env clients ws args).1 := by
    have hstep : process_worksheet env clients ws args =
      (match copy_form env.tr ws args.length with
       | .error e => ({ ws := ws, clients := clients, response := none, trace := [] }, .error e)
       | .ok ws1 =>
         procArgs env 0 args
           { ws := ws1, clients := clients, response := none, trace := [] }) := rfl
    rw [hstep]
    rcases hcf : copy_form env.tr ws args.length with e | ws1
    · exact ⟨rfl, fun p reg path v hp => Option.noConfusion hp⟩
    · exact procArgs_RegInv env args 0 _ ⟨rfl, fun p reg path v hp => Option.noConfusion hp⟩
  rw [h] at h0
  exact h0

set_option maxRecDepth 20000 in
/-- C5 (witness): on the worksheet `exS5` (an `#output` directive above a
`#call` directive) with two argument sets, the recorded trace is
`[output none, call "R", output (some "R"), call "R"]`: the first pass's
Output read the initial `none` register, and the second pass's Output (at
trace position 2) read the response of the *first* pass's Call — the
stale cross-replica read the invariant describes. -/
theorem c5_response_register_witness :
    (process_worksheet exEnv5 ([] : Cache Unit String) exS5 [[], []]).1.trace =
      [Ev.output none "$.Name" none, Ev.call "R",
       Ev.output (some "R") "$.Name" (some "R"), Ev.call "R"] ∧
    (some "R" : Option String) =
      lastResp ((process_worksheet exEnv5 ([] : Cache Unit String) exS5 [[], []]).1.trace.take 2) ∧
    (process_worksheet exEnv5 ([] : Cache Unit String) exS5 [[], []]).1.response =
      lastResp (process_worksheet exEnv5 ([] : Cache Unit String) exS5 [[], []]).1.trace := by
  have h := c5_response_register_invariant exEnv5 [] exS5 [[], []]
      (process_worksheet exEnv5 ([] : Cache Unit String) exS5 [[], []]).1
      (process_worksheet exEnv5 ([] : Cache Unit String) exS5 [[], []]).2 Prod.mk.eta.symm
  exact ⟨by decide, (h.2 2 (some "R") "$.Name" (some "R") (by decide)).1, h.1⟩

/-- C3 (witness): the amended characterisation applied to the concrete
worksheet `exS3` with one replica: the form is rows 1–2, columns 2–3; the
replica cell at row 1, column 4 is the `copyCell` image of the template
cell at row 1, column 2; the cell at row 1, column 6 (beyond the replica's
bound, within the form's rows) is blanked; and the leftover cell at row 3,
column 8 (below the form) is unchanged. -/
theorem c3_copy_form_witness :
    copy_form exTr exS3 1 = .ok (copyFormSheet exTr exS3 1 2 2 3 1) ∧
    (copyFormSheet exTr exS3 1 2 2 3 1).val 1 (3 + (1 - 1) * (3 + 1 - 2) + 1 + 0) =
      copyCell exTr 1 1 1 (2 + 0) 1 (3 + (1 - 1) * (3 + 1 - 2) + 1 + 0) (exS3.val 1 (2 + 0)) ∧
    (copyFormSheet exTr exS3 1 2 2 3 1).val 1 6 = none ∧
    (copyFormSheet exTr exS3 1 2 2 3 1).val 3 8 = exS3.val 3 8 := by
  have h := c3_copy_form_characterisation exTr exS3 1 1 2 2 3 (by decide) (mkSheet_bounded _)
  exact ⟨h.1, h.2.2.1 1 0 1 (by decide) (by decide) (by decide) (by decide) (by decide),
    h.2.2.2.1 1 6 (by decide) (by decide), h.2.2.2.2.2 3 8 (by decide)⟩

end AwsSheet
